import Mathlib

/-!
Verification of the RAPPterverse state-consistency core against its
natural-language specification.

The development shallowly embeds the write-path scripts of the repository:

* `scripts/apply_deltas.py` — the delta applier (`apply_delta`, and the
  pending-delta ordering performed by `main`);
* `scripts/validate_delta.py` — the inbox delta validator (`validate_delta`);
* `scripts/validate_action.py` — the state validator and auditor
  (`validate_position`, `validate_agents`, the position-drift cross-check of
  `audit_state_consistency`);
* `scripts/test_state_integrity.py` — the `_meta.agentCount` integrity test.

JSON values are modelled by the inductive type `Val` (JSON numbers are
modelled as integers; every number literal appearing in the embedded code is
an integer).  Python dictionaries are modelled as association lists with
Python's insertion-order semantics (`aget`, `aset`, `dupdate`).  Python code
that can raise an exception is modelled in the `Except PyErr` monad; code
paths on which the scripts are exception-free are modelled as pure functions.
-/

/-- JSON value, as parsed by Python's `json.load`.  Numbers are modelled as
integers (all numeric literals in the embedded scripts are integers). -/
inductive Val where
  | null : Val
  | bool : Bool → Val
  | num : Int → Val
  | str : String → Val
  | arr : List Val → Val
  | obj : List (String × Val) → Val
deriving Repr

mutual

def Val.deq : (a b : Val) → Decidable (a = b)
  | .null, .null => .isTrue rfl
  | .bool a, .bool b =>
    match decEq a b with
    | .isTrue h => .isTrue (by rw [h])
    | .isFalse h => .isFalse (fun he => h (Val.bool.inj he))
  | .num a, .num b =>
    match decEq a b with
    | .isTrue h => .isTrue (by rw [h])
    | .isFalse h => .isFalse (fun he => h (Val.num.inj he))
  | .str a, .str b =>
    match decEq a b with
    | .isTrue h => .isTrue (by rw [h])
    | .isFalse h => .isFalse (fun he => h (Val.str.inj he))
  | .arr a, .arr b =>
    match Val.deqList a b with
    | .isTrue h => .isTrue (by rw [h])
    | .isFalse h => .isFalse (fun he => h (Val.arr.inj he))
  | .obj a, .obj b =>
    match Val.deqFields a b with
    | .isTrue h => .isTrue (by rw [h])
    | .isFalse h => .isFalse (fun he => h (Val.obj.inj he))
  | .null, .bool _ => .isFalse (fun h => nomatch h)
  | .null, .num _ => .isFalse (fun h => nomatch h)
  | .null, .str _ => .isFalse (fun h => nomatch h)
  | .null, .arr _ => .isFalse (fun h => nomatch h)
  | .null, .obj _ => .isFalse (fun h => nomatch h)
  | .bool _, .null => .isFalse (fun h => nomatch h)
  | .bool _, .num _ => .isFalse (fun h => nomatch h)
  | .bool _, .str _ => .isFalse (fun h => nomatch h)
  | .bool _, .arr _ => .isFalse (fun h => nomatch h)
  | .bool _, .obj _ => .isFalse (fun h => nomatch h)
  | .num _, .null => .isFalse (fun h => nomatch h)
  | .num _, .bool _ => .isFalse (fun h => nomatch h)
  | .num _, .str _ => .isFalse (fun h => nomatch h)
  | .num _, .arr _ => .isFalse (fun h => nomatch h)
  | .num _, .obj _ => .isFalse (fun h => nomatch h)
  | .str _, .null => .isFalse (fun h => nomatch h)
  | .str _, .bool _ => .isFalse (fun h => nomatch h)
  | .str _, .num _ => .isFalse (fun h => nomatch h)
  | .str _, .arr _ => .isFalse (fun h => nomatch h)
  | .str _, .obj _ => .isFalse (fun h => nomatch h)
  | .arr _, .null => .isFalse (fun h => nomatch h)
  | .arr _, .bool _ => .isFalse (fun h => nomatch h)
  | .arr _, .num _ => .isFalse (fun h => nomatch h)
  | .arr _, .str _ => .isFalse (fun h => nomatch h)
  | .arr _, .obj _ => .isFalse (fun h => nomatch h)
  | .obj _, .null => .isFalse (fun h => nomatch h)
  | .obj _, .bool _ => .isFalse (fun h => nomatch h)
  | .obj _, .num _ => .isFalse (fun h => nomatch h)
  | .obj _, .str _ => .isFalse (fun h => nomatch h)
  | .obj _, .arr _ => .isFalse (fun h => nomatch h)

def Val.deqList : (a b : List Val) → Decidable (a = b)
  | [], [] => .isTrue rfl
  | [], _ :: _ => .isFalse (fun h => nomatch h)
  | _ :: _, [] => .isFalse (fun h => nomatch h)
  | x :: xs, y :: ys =>
    match Val.deq x y with
    | .isTrue h1 =>
      match Val.deqList xs ys with
      | .isTrue h2 => .isTrue (by rw [h1, h2])
      | .isFalse h2 => .isFalse (fun h => h2 (List.cons.inj h).2)
    | .isFalse h1 => .isFalse (fun h => h1 (List.cons.inj h).1)

def Val.deqFields : (a b : List (String × Val)) → Decidable (a = b)
  | [], [] => .isTrue rfl
  | [], _ :: _ => .isFalse (fun h => nomatch h)
  | _ :: _, [] => .isFalse (fun h => nomatch h)
  | (k1, v1) :: xs, (k2, v2) :: ys =>
    match decEq k1 k2 with
    | .isTrue hk =>
      match Val.deq v1 v2 with
      | .isTrue h1 =>
        match Val.deqFields xs ys with
        | .isTrue h2 => .isTrue (by rw [hk, h1, h2])
        | .isFalse h2 => .isFalse (fun h => h2 (List.cons.inj h).2)
      | .isFalse h1 => .isFalse (fun h => h1 (congrArg Prod.snd (List.cons.inj h).1))
    | .isFalse hk => .isFalse (fun h => hk (congrArg Prod.fst (List.cons.inj h).1))

end

instance : DecidableEq Val := Val.deq

/-- Python dictionary with string keys, in insertion order (the shape of every
JSON object document handled by the scripts). -/
abbrev Dict := List (String × Val)

/-- Lookup in an association list: the value at the first occurrence of the
key (Python dictionaries have unique keys, so first = only occurrence). -/
def aget {κ β : Type} [DecidableEq κ] : List (κ × β) → κ → Option β
  | [], _ => none
  | (k', v) :: d, k => if k' = k then some v else aget d k

/-- Assignment `d[k] = v` with Python's insertion-order semantics: an existing
key keeps its position and gets the new value, a new key is appended. -/
def aset {κ β : Type} [DecidableEq κ] : List (κ × β) → κ → β → List (κ × β)
  | [], k, v => [(k, v)]
  | (k', v') :: d, k, v => if k' = k then (k, v) :: d else (k', v') :: aset d k v

/-- Python's `d.update(u)`: every key/value pair of `u` is assigned into `d`
in order. -/
def dupdate (d u : Dict) : Dict := u.foldl (fun acc kv => aset acc kv.1 kv.2) d

/-- Python truthiness of a JSON value (`if x:`). -/
def Val.truthy : Val → Bool
  | .null => false
  | .bool b => b
  | .num n => n != 0
  | .str s => s ≠ ""
  | .arr xs => !xs.isEmpty
  | .obj fs => !fs.isEmpty

/-- Keys of a dictionary, in order. -/
def keysOf {κ β : Type} (d : List (κ × β)) : List κ := d.map Prod.fst

/-! ### Association-list lemmas -/

theorem aget_aset_same {κ β : Type} [DecidableEq κ] (d : List (κ × β)) (k : κ) (v : β) :
    aget (aset d k v) k = some v := by
  induction d with
  | nil => simp [aget, aset]
  | cons p d ih =>
    by_cases h : p.1 = k
    · obtain ⟨pk, pv⟩ := p
      simp only at h
      simp [aset, aget, h]
    · obtain ⟨pk, pv⟩ := p
      simp only at h
      simp [aset, aget, h, ih]

theorem aget_aset_ne {κ β : Type} [DecidableEq κ] (d : List (κ × β)) (k k' : κ) (v : β)
    (h : k' ≠ k) : aget (aset d k v) k' = aget d k' := by
  have hk : k ≠ k' := Ne.symm h
  induction d with
  | nil => simp [aget, aset, hk]
  | cons p d ih =>
    obtain ⟨pk, pv⟩ := p
    by_cases hp : pk = k
    · subst hp
      simp [aset, aget, hk]
    · by_cases hp' : pk = k'
      · simp [aset, aget, hp, hp', h]
      · simp [aset, aget, hp, hp', ih]

theorem aset_eq_of_aget {κ β : Type} [DecidableEq κ] (d : List (κ × β)) (k : κ) (v : β)
    (h : aget d k = some v) : aset d k v = d := by
  induction d with
  | nil => simp [aget] at h
  | cons p d ih =>
    obtain ⟨pk, pv⟩ := p
    by_cases hp : pk = k
    · subst hp
      have hv : pv = v := by simpa [aget] using h
      simp [aset, hv]
    · have h' : aget d k = some v := by simpa [aget, hp] using h
      simp [aset, hp, ih h']

theorem aget_eq_none_of_not_mem {κ β : Type} [DecidableEq κ] (d : List (κ × β)) (k : κ)
    (h : k ∉ keysOf d) : aget d k = none := by
  induction d with
  | nil => simp [aget]
  | cons p d ih =>
    have hp : p.1 ≠ k := fun he => h (by simp [keysOf, he])
    have h' : k ∉ keysOf d := fun hm => h (by simp [keysOf] at hm ⊢; exact Or.inr hm)
    simp [aget, hp, ih h']

theorem aget_dupdate_not_mem (d u : Dict) (k : String)
    (h : aget u k = none) : aget (dupdate d u) k = aget d k := by
  induction u generalizing d with
  | nil => simp [dupdate]
  | cons p u ih =>
    have hp : p.1 ≠ k := by
      intro hk
      obtain ⟨pk, pv⟩ := p
      simp only at hk
      simp [aget, hk] at h
    have h' : aget u k = none := by
      obtain ⟨pk, pv⟩ := p
      simp only at hp
      simpa [aget, hp] using h
    have := ih (aset d p.1 p.2) h'
    rw [aget_aset_ne _ _ _ _ (Ne.symm hp)] at this
    simpa [dupdate] using this

theorem aget_dupdate_mem (d u : Dict) (k : String) (v : Val)
    (hnd : (keysOf u).Nodup) (h : aget u k = some v) :
    aget (dupdate d u) k = some v := by
  induction u generalizing d with
  | nil => simp [aget] at h
  | cons p u ih =>
    obtain ⟨pk, pv⟩ := p
    have hnd' : (keysOf u).Nodup := by
      simpa [keysOf] using (List.nodup_cons.mp (by simpa [keysOf] using hnd)).2
    by_cases hp : pk = k
    · subst hp
      have hv : pv = v := by simpa [aget] using h
      have hknot : pk ∉ keysOf u := (List.nodup_cons.mp (by simpa [keysOf] using hnd)).1
      have hnone : aget u pk = none := aget_eq_none_of_not_mem u pk hknot
      have hstep : aget (dupdate (aset d pk pv) u) pk = aget (aset d pk pv) pk :=
        aget_dupdate_not_mem _ u pk hnone
      rw [aget_aset_same] at hstep
      rw [← hv]
      simpa [dupdate] using hstep
    · have h' : aget u k = some v := by simpa [aget, hp] using h
      simpa [dupdate] using ih (aset d pk pv) hnd' h'

/-- In a dictionary with unique keys, every entry is retrievable. -/
theorem aget_of_mem_nodup (u : Dict) (kv : String × Val)
    (hnd : (keysOf u).Nodup) (h : kv ∈ u) : aget u kv.1 = some kv.2 := by
  induction u with
  | nil => simp at h
  | cons q u ih =>
    rcases List.mem_cons.mp h with h | h
    · simp [h, aget]
    · have hq : q.1 ≠ kv.1 := by
        intro he
        have hm : kv.1 ∈ keysOf u := List.mem_map_of_mem Prod.fst h
        rw [← he] at hm
        exact (List.nodup_cons.mp (by simpa [keysOf] using hnd)).1 hm
      have hnd' : (keysOf u).Nodup := by
        simpa [keysOf] using (List.nodup_cons.mp (by simpa [keysOf] using hnd)).2
      simp [aget, hq, ih hnd' h]

/-- Updating a dictionary with entries it already holds is the identity. -/
theorem dupdate_self_of_sub (d : Dict) (u : Dict)
    (h : ∀ kv ∈ u, aget d kv.1 = some kv.2) : dupdate d u = d := by
  induction u generalizing d with
  | nil => simp [dupdate]
  | cons p u ih =>
    have h1 : aset d p.1 p.2 = d := aset_eq_of_aget d p.1 p.2 (h p (by simp))
    have h2 : ∀ kv ∈ u, aget d kv.1 = some kv.2 := fun kv hkv => h kv (by simp [hkv])
    simpa [dupdate, h1] using ih d h2

/-- Applying the same `dict.update` twice is the same as applying it once. -/
theorem dupdate_dupdate_self (d u : Dict) (hnd : (keysOf u).Nodup) :
    dupdate (dupdate d u) u = dupdate d u := by
  apply dupdate_self_of_sub
  intro kv hkv
  exact aget_dupdate_mem d u kv.1 kv.2 hnd (aget_of_mem_nodup u kv hnd hkv)

/-! ### The delta applier: `scripts/apply_deltas.py`

`apply_delta` (lines 51–153) reads one inbox delta and applies its five
optional sections to the canonical documents in order:
actions, messages, agent upsert, world objects, activities.
The embedding mirrors each branch of the source, including the Python
truthiness guards (`if "actions" in delta and delta["actions"]:` is an
`Option` that is `some` of a non-empty list), the `dict.update` upsert
semantics, and the `setdefault`-style metadata writes.  A document whose
top-level key (`"actions"`, `"messages"`, `"agents"`) is missing behaves in
the source exactly like an empty list (the branch inserts `[]` first), so
documents are modelled with the list directly. -/

/-- The `objects` section of a delta: `{"world": ..., "entries": [...]}`. -/
structure ObjectsDelta where
  world : Option String
  entries : List Dict
deriving DecidableEq, Repr

/-- An inbox delta file, in the documented format of `apply_deltas.py`
(module docstring, lines 7–19).  Each absent key is `none`. -/
structure Delta where
  agent_id : Option String
  timestamp : Option String
  actions : Option (List Val)
  messages : Option (List Val)
  agent_update : Option Dict
  objects : Option ObjectsDelta
  activities : Option (List Val)
deriving DecidableEq, Repr

/-- An append-log document (`state/actions.json` with its `actions` array, or
`state/chat.json` with its `messages` array), plus its `_meta` object. -/
structure LogDoc where
  entries : List Val
  meta : Dict
deriving DecidableEq, Repr

/-- The `state/agents.json` document: the `agents` array (each agent a JSON
object) and the `_meta` object. -/
structure AgentsDoc where
  agents : List Dict
  meta : Dict
deriving DecidableEq, Repr

/-- A `worlds/{world}/objects.json` document. -/
structure ObjectsDoc where
  objects : List Dict
  meta : Dict
deriving DecidableEq, Repr

/-- The `feed/activity.json` document (its `activities` array; the source
writes no `_meta` on the activities branch). -/
structure FeedDoc where
  activities : List Val
deriving DecidableEq, Repr

/-- The canonical state operated on by `apply_delta`: the two append logs,
the agents snapshot, the per-world objects documents (association list from
world name; a missing file loads as an empty document), and the activity
feed. -/
structure WState where
  actionsDoc : LogDoc
  chatDoc : LogDoc
  agentsDoc : AgentsDoc
  worlds : List (String × ObjectsDoc)
  feed : FeedDoc
deriving DecidableEq, Repr

/-- The empty objects document (`load_json` of a missing file gives `{}`). -/
def emptyObjectsDoc : ObjectsDoc := ⟨[], []⟩

/-- Read a world's objects document, defaulting to the empty document. -/
def getWorld (s : WState) (w : String) : ObjectsDoc :=
  (aget s.worlds w).getD emptyObjectsDoc

/-- Branch 1 of `apply_delta` (lines 62–73): append `delta["actions"]` to
`state/actions.json` and stamp `_meta.lastUpdate`. -/
def apply_actions (now : String) (d : Delta) (s : WState) : WState :=
  match d.actions with
  | some acts =>
    if acts.isEmpty then s
    else
      let ts := d.timestamp.getD now
      { s with actionsDoc := { entries := s.actionsDoc.entries ++ acts,
                               meta := aset s.actionsDoc.meta "lastUpdate" (.str ts) } }
  | none => s

/-- Branch 2 of `apply_delta` (lines 75–86): append `delta["messages"]` to
`state/chat.json` and stamp `_meta.lastUpdate`. -/
def apply_messages (now : String) (d : Delta) (s : WState) : WState :=
  match d.messages with
  | some msgs =>
    if msgs.isEmpty then s
    else
      let ts := d.timestamp.getD now
      { s with chatDoc := { entries := s.chatDoc.entries ++ msgs,
                            meta := aset s.chatDoc.meta "lastUpdate" (.str ts) } }
  | none => s

/-- The upsert loop of branch 3 (lines 99–106): the first agent whose `id`
equals the payload's `id` is merged in place via `dict.update`; if none
matches, the payload is appended as a new record. -/
def upsertAgents (u : Dict) (uid : Val) : List Dict → List Dict
  | [] => [u]
  | a :: rest =>
    if aget a "id" = some uid then dupdate a u :: rest
    else a :: upsertAgents u uid rest

/-- Branch 3 of `apply_delta` (lines 88–113) on the agents document alone:
guarded by `delta["agent_update"]` being a non-empty dict with a truthy
`id`; stamps `_meta.lastUpdate` and recomputes `_meta.agentCount` from the
new length of the agents array. -/
def agentUpdateDoc (now : String) (d : Delta) (A : AgentsDoc) : AgentsDoc :=
  match d.agent_update with
  | some u =>
    if u.isEmpty then A
    else
      match aget u "id" with
      | some uid =>
        if uid.truthy then
          let ts := d.timestamp.getD now
          let agents' := upsertAgents u uid A.agents
          { agents := agents',
            meta := aset (aset A.meta "lastUpdate" (.str ts))
                      "agentCount" (.num agents'.length) }
        else A
      | none => A
  | none => A

/-- Branch 3 of `apply_delta`, lifted to the whole state. -/
def apply_agent_update (now : String) (d : Delta) (s : WState) : WState :=
  { s with agentsDoc := agentUpdateDoc now d s.agentsDoc }

/-- The `contributors` list read from a world document's `_meta`
(line 132, `world_data["_meta"].get("contributors", [])`).  A present
non-list value would raise a `TypeError` at the following membership test in
the source and is outside the modelled scope. -/
def contribList : Option Val → List Val
  | some (.arr l) => l
  | _ => []

/-- Branch 4 of `apply_delta` (lines 115–139) on one world document: filter
the entries whose `id` already occurs among the existing objects' ids,
append the rest, stamp `_meta.lastUpdated` and record the contributing
agent.  Note the deduplication is only against the pre-existing objects, and
only this branch deduplicates at all. -/
def objectsDocStep (ts aid : String) (entries : List Dict) (doc : ObjectsDoc) : ObjectsDoc :=
  let existing := doc.objects.map (fun o => aget o "id")
  let newObjects := entries.filter (fun o => decide ((aget o "id") ∉ existing))
  let meta1 := aset doc.meta "lastUpdated" (.str ts)
  let contributors := contribList (aget meta1 "contributors")
  let meta2 :=
    if (Val.str aid) ∈ contributors then meta1
    else aset meta1 "contributors" (.arr (contributors ++ [.str aid]))
  { objects := doc.objects ++ newObjects, meta := meta2 }

/-- Branch 4 of `apply_delta`, lifted to the whole state.  The branch writes
nothing when the entries list is empty (`if entries:`); an empty `objects`
dict is equivalent to absent for this branch, since its `entries` default
is `[]`. -/
def apply_objects (now : String) (d : Delta) (s : WState) : WState :=
  match d.objects with
  | some od =>
    if od.entries.isEmpty then s
    else
      let w := od.world.getD "hub"
      let ts := d.timestamp.getD now
      let aid := d.agent_id.getD "unknown"
      { s with worlds := aset s.worlds w (objectsDocStep ts aid od.entries (getWorld s w)) }
  | none => s

/-- Branch 5 of `apply_delta` (lines 141–151): append `delta["activities"]`
to `feed/activity.json` (no metadata write). -/
def apply_activities (d : Delta) (s : WState) : WState :=
  match d.activities with
  | some acts =>
    if acts.isEmpty then s
    else { s with feed := ⟨s.feed.activities ++ acts⟩ }
  | none => s

/-- The whole of `apply_delta` (lines 51–153): the five branches in source
order.  `now` is the value of `datetime.utcnow()` used when the delta
declares no timestamp.  The source performs no validation whatsoever before
writing. -/
def apply_delta (now : String) (d : Delta) (s : WState) : WState :=
  apply_activities d (apply_objects now d (apply_agent_update now d
    (apply_messages now d (apply_actions now d s))))

/-! ### Frame and effect lemmas for the applier branches -/

theorem apply_actions_actionsDoc (now : String) (d : Delta) (s : WState) :
    (apply_actions now d s).actionsDoc.entries
      = s.actionsDoc.entries ++ d.actions.getD [] := by
  unfold apply_actions
  cases h : d.actions with
  | none => simp
  | some acts =>
    by_cases he : acts.isEmpty
    · have : acts = [] := List.isEmpty_iff.mp he
      simp [he, this]
    · simp [he]

theorem apply_actions_chatDoc (now : String) (d : Delta) (s : WState) :
    (apply_actions now d s).chatDoc = s.chatDoc := by
  unfold apply_actions
  cases d.actions with
  | none => rfl
  | some acts => by_cases he : acts.isEmpty <;> simp [he]

theorem apply_actions_agentsDoc (now : String) (d : Delta) (s : WState) :
    (apply_actions now d s).agentsDoc = s.agentsDoc := by
  unfold apply_actions
  cases d.actions with
  | none => rfl
  | some acts => by_cases he : acts.isEmpty <;> simp [he]

theorem apply_actions_worlds (now : String) (d : Delta) (s : WState) :
    (apply_actions now d s).worlds = s.worlds := by
  unfold apply_actions
  cases d.actions with
  | none => rfl
  | some acts => by_cases he : acts.isEmpty <;> simp [he]

theorem apply_actions_feed (now : String) (d : Delta) (s : WState) :
    (apply_actions now d s).feed = s.feed := by
  unfold apply_actions
  cases d.actions with
  | none => rfl
  | some acts => by_cases he : acts.isEmpty <;> simp [he]

theorem apply_messages_chatDoc (now : String) (d : Delta) (s : WState) :
    (apply_messages now d s).chatDoc.entries
      = s.chatDoc.entries ++ d.messages.getD [] := by
  unfold apply_messages
  cases h : d.messages with
  | none => simp
  | some msgs =>
    by_cases he : msgs.isEmpty
    · have : msgs = [] := List.isEmpty_iff.mp he
      simp [he, this]
    · simp [he]

theorem apply_messages_actionsDoc (now : String) (d : Delta) (s : WState) :
    (apply_messages now d s).actionsDoc = s.actionsDoc := by
  unfold apply_messages
  cases d.messages with
  | none => rfl
  | some msgs => by_cases he : msgs.isEmpty <;> simp [he]

theorem apply_messages_agentsDoc (now : String) (d : Delta) (s : WState) :
    (apply_messages now d s).agentsDoc = s.agentsDoc := by
  unfold apply_messages
  cases d.messages with
  | none => rfl
  | some msgs => by_cases he : msgs.isEmpty <;> simp [he]

theorem apply_messages_worlds (now : String) (d : Delta) (s : WState) :
    (apply_messages now d s).worlds = s.worlds := by
  unfold apply_messages
  cases d.messages with
  | none => rfl
  | some msgs => by_cases he : msgs.isEmpty <;> simp [he]

theorem apply_messages_feed (now : String) (d : Delta) (s : WState) :
    (apply_messages now d s).feed = s.feed := by
  unfold apply_messages
  cases d.messages with
  | none => rfl
  | some msgs => by_cases he : msgs.isEmpty <;> simp [he]

theorem apply_agent_update_agentsDoc (now : String) (d : Delta) (s : WState) :
    (apply_agent_update now d s).agentsDoc = agentUpdateDoc now d s.agentsDoc := rfl

theorem apply_agent_update_actionsDoc (now : String) (d : Delta) (s : WState) :
    (apply_agent_update now d s).actionsDoc = s.actionsDoc := rfl

theorem apply_agent_update_chatDoc (now : String) (d : Delta) (s : WState) :
    (apply_agent_update now d s).chatDoc = s.chatDoc := rfl

theorem apply_agent_update_worlds (now : String) (d : Delta) (s : WState) :
    (apply_agent_update now d s).worlds = s.worlds := rfl

theorem apply_agent_update_feed (now : String) (d : Delta) (s : WState) :
    (apply_agent_update now d s).feed = s.feed := rfl

theorem apply_objects_actionsDoc (now : String) (d : Delta) (s : WState) :
    (apply_objects now d s).actionsDoc = s.actionsDoc := by
  unfold apply_objects
  cases d.objects with
  | none => rfl
  | some od => by_cases he : od.entries.isEmpty <;> simp [he]

theorem apply_objects_chatDoc (now : String) (d : Delta) (s : WState) :
    (apply_objects now d s).chatDoc = s.chatDoc := by
  unfold apply_objects
  cases d.objects with
  | none => rfl
  | some od => by_cases he : od.entries.isEmpty <;> simp [he]

theorem apply_objects_agentsDoc (now : String) (d : Delta) (s : WState) :
    (apply_objects now d s).agentsDoc = s.agentsDoc := by
  unfold apply_objects
  cases d.objects with
  | none => rfl
  | some od => by_cases he : od.entries.isEmpty <;> simp [he]

theorem apply_objects_feed (now : String) (d : Delta) (s : WState) :
    (apply_objects now d s).feed = s.feed := by
  unfold apply_objects
  cases d.objects with
  | none => rfl
  | some od => by_cases he : od.entries.isEmpty <;> simp [he]

theorem apply_activities_feed (d : Delta) (s : WState) :
    (apply_activities d s).feed.activities
      = s.feed.activities ++ d.activities.getD [] := by
  unfold apply_activities
  cases h : d.activities with
  | none => simp
  | some acts =>
    by_cases he : acts.isEmpty
    · have : acts = [] := List.isEmpty_iff.mp he
      simp [he, this]
    · simp [he]

theorem apply_activities_actionsDoc (d : Delta) (s : WState) :
    (apply_activities d s).actionsDoc = s.actionsDoc := by
  unfold apply_activities
  cases d.activities with
  | none => rfl
  | some acts => by_cases he : acts.isEmpty <;> simp [he]

theorem apply_activities_chatDoc (d : Delta) (s : WState) :
    (apply_activities d s).chatDoc = s.chatDoc := by
  unfold apply_activities
  cases d.activities with
  | none => rfl
  | some acts => by_cases he : acts.isEmpty <;> simp [he]

theorem apply_activities_agentsDoc (d : Delta) (s : WState) :
    (apply_activities d s).agentsDoc = s.agentsDoc := by
  unfold apply_activities
  cases d.activities with
  | none => rfl
  | some acts => by_cases he : acts.isEmpty <;> simp [he]

theorem apply_activities_worlds (d : Delta) (s : WState) :
    (apply_activities d s).worlds = s.worlds := by
  unfold apply_activities
  cases d.activities with
  | none => rfl
  | some acts => by_cases he : acts.isEmpty <;> simp [he]

/-- Net effect of a whole delta application on the actions log. -/
theorem apply_delta_actions_entries (now : String) (d : Delta) (s : WState) :
    (apply_delta now d s).actionsDoc.entries
      = s.actionsDoc.entries ++ d.actions.getD [] := by
  unfold apply_delta
  rw [apply_activities_actionsDoc, apply_objects_actionsDoc,
      apply_agent_update_actionsDoc, apply_messages_actionsDoc,
      apply_actions_actionsDoc]

/-- Net effect of a whole delta application on the chat log. -/
theorem apply_delta_chat_entries (now : String) (d : Delta) (s : WState) :
    (apply_delta now d s).chatDoc.entries
      = s.chatDoc.entries ++ d.messages.getD [] := by
  unfold apply_delta
  rw [apply_activities_chatDoc, apply_objects_chatDoc,
      apply_agent_update_chatDoc, apply_messages_chatDoc,
      apply_actions_chatDoc]

/-- Net effect of a whole delta application on the activity feed. -/
theorem apply_delta_feed (now : String) (d : Delta) (s : WState) :
    (apply_delta now d s).feed.activities
      = s.feed.activities ++ d.activities.getD [] := by
  unfold apply_delta
  rw [apply_activities_feed, apply_objects_feed,
      apply_agent_update_feed, apply_messages_feed,
      apply_actions_feed]

/-- Net effect of a whole delta application on the agents document. -/
theorem apply_delta_agentsDoc (now : String) (d : Delta) (s : WState) :
    (apply_delta now d s).agentsDoc = agentUpdateDoc now d s.agentsDoc := by
  unfold apply_delta
  rw [apply_activities_agentsDoc, apply_objects_agentsDoc,
      apply_agent_update_agentsDoc, apply_messages_agentsDoc,
      apply_actions_agentsDoc]

/-- Net effect of a whole delta application on the world documents. -/
theorem apply_delta_worlds (now : String) (d : Delta) (s : WState) :
    (apply_delta now d s).worlds = (apply_objects now d
      (apply_agent_update now d (apply_messages now d (apply_actions now d s)))).worlds := by
  unfold apply_delta
  rw [apply_activities_worlds]

/-! ### C1 — atomicity of delta application -/

/-- A chat message authored by the given agent id, in the shape consumed by
`validate_chat` (`scripts/validate_action.py`, lines 235–257). -/
def mkMsg (i : Nat) (author : String) : Val :=
  .obj [("id", .str ("msg-" ++ toString i)),
        ("timestamp", .str "2026-02-11T19:20:44Z"),
        ("author", .obj [("id", .str author), ("name", .str author)]),
        ("content", .str "hello"),
        ("world", .str "hub")]

/-- A state whose agents document holds the single agent `alice` and whose
chat log is empty. -/
def c1State : WState :=
  { actionsDoc := ⟨[], []⟩,
    chatDoc := ⟨[], [("lastUpdate", .str "2026-02-11T00:00:00Z")]⟩,
    agentsDoc := ⟨[[("id", .str "alice"), ("name", .str "alice"),
                    ("world", .str "hub"),
                    ("position", .obj [("x", .num 0), ("z", .num 0)]),
                    ("status", .str "active")]],
                  [("agentCount", .num 1)]⟩,
    worlds := [],
    feed := ⟨[]⟩ }

/-- A delta carrying three messages authored by the existing agent `alice`
and one message whose producer `ghost` is not a registered agent. -/
def c1Delta : Delta :=
  { agent_id := some "alice",
    timestamp := some "2026-02-11T19:20:44Z",
    actions := none,
    messages := some [mkMsg 1 "alice", mkMsg 2 "alice", mkMsg 3 "alice",
                      mkMsg 4 "ghost"],
    agent_update := none,
    objects := none,
    activities := none }

/-- C1, counterexample.  The claim states that a delta containing three valid
chat entries and one entry whose producer references a nonexistent agent
appends zero entries (log length unchanged).  On the code, `apply_delta`
performs no validation at all: the producer `ghost` of the fourth message is
not an agent of the state, the chat log starts empty, and after applying the
delta the log holds all 4 entries. -/
theorem apply_delta_not_atomic_counterexample :
    (¬ ∃ a ∈ c1State.agentsDoc.agents, aget a "id" = some (.str "ghost")) ∧
    c1State.chatDoc.entries.length = 0 ∧
    (apply_delta "2026-02-11T19:30:00Z" c1Delta c1State).chatDoc.entries.length = 4 := by
  refine ⟨by decide, rfl, by decide⟩

/-- C1 (amended): applying a delta appends every entry of its `messages`
list unconditionally — the applier performs no validation, so the chat log's
length after the merge equals its length before plus the number of entries
in the delta, whether or not any entry is invalid. -/
theorem apply_delta_appends_all_messages (now : String) (d : Delta) (s : WState) :
    (apply_delta now d s).chatDoc.entries.length
      = s.chatDoc.entries.length + (d.messages.getD []).length := by
  rw [apply_delta_chat_entries, List.length_append]

/-! ### C3 — log cardinality bound -/

/-- A state whose actions log already holds 100 entries (100 being the
`[-100:]` retention constant used by the repository's writer scripts, e.g.
`scripts/generate_activity.py` line 447). -/
def c3State : WState :=
  { actionsDoc := ⟨List.replicate 100 (.obj [("id", .str "old"), ("type", .str "move")]), []⟩,
    chatDoc := ⟨[], []⟩,
    agentsDoc := ⟨[], []⟩,
    worlds := [],
    feed := ⟨[]⟩ }

/-- A delta appending a single action. -/
def c3Delta : Delta :=
  { agent_id := some "alice",
    timestamp := some "2026-02-11T19:20:44Z",
    actions := some [.obj [("id", .str "new"), ("type", .str "move")]],
    messages := none,
    agent_update := none,
    objects := none,
    activities := none }

/-- C3, counterexample.  The claim states that after every merge pass each
bounded log holds at most N (= 100) entries, the most recent ones, truncated
oldest-first.  On the code, `apply_delta` never truncates: appending one
action to a log of 100 entries leaves 101 entries, and the oldest entry is
still at the head of the log. -/
theorem apply_delta_no_truncation_counterexample :
    c3State.actionsDoc.entries.length = 100 ∧
    (apply_delta "2026-02-11T19:30:00Z" c3Delta c3State).actionsDoc.entries.length = 101 ∧
    (apply_delta "2026-02-11T19:30:00Z" c3Delta c3State).actionsDoc.entries.head?
      = some (.obj [("id", .str "old"), ("type", .str "move")]) := by
  refine ⟨by decide, by decide, by decide⟩

/-- C3 (amended): the merge engine never truncates a log.  After a merge
pass each append log holds exactly all of its previous entries followed by
the delta's appended entries; trimming to the most recent 100 is done by
other writer scripts of the repository, never by `apply_delta`. -/
theorem apply_delta_logs_are_pure_appends (now : String) (d : Delta) (s : WState) :
    (apply_delta now d s).actionsDoc.entries
        = s.actionsDoc.entries ++ d.actions.getD [] ∧
    (apply_delta now d s).chatDoc.entries
        = s.chatDoc.entries ++ d.messages.getD [] ∧
    (apply_delta now d s).feed.activities
        = s.feed.activities ++ d.activities.getD [] :=
  ⟨apply_delta_actions_entries now d s, apply_delta_chat_entries now d s,
   apply_delta_feed now d s⟩

/-! ### C5 — upsert semantics, and C10 — agentCount maintenance -/

theorem isEmpty_false_of_ne_nil {α : Type} {l : List α} (h : l ≠ []) :
    l.isEmpty = false := by
  cases l with
  | nil => exact absurd rfl h
  | cons a t => rfl

/-- The upsert loop replaces the first id-matching record (merging via
`dict.update`) and leaves everything else untouched. -/
theorem upsertAgents_replace_first (u : Dict) (uid : Val) (pre post : List Dict) (a : Dict)
    (hpre : ∀ b ∈ pre, aget b "id" ≠ some uid) (ha : aget a "id" = some uid) :
    upsertAgents u uid (pre ++ a :: post) = pre ++ dupdate a u :: post := by
  induction pre with
  | nil => simp [upsertAgents, ha]
  | cons b pre ih =>
    have hb : aget b "id" ≠ some uid := hpre b (by simp)
    have hrest : ∀ c ∈ pre, aget c "id" ≠ some uid := fun c hc => hpre c (by simp [hc])
    simp [upsertAgents, hb, ih hrest]

/-- On the main upsert path, the agents document after `apply_delta` is the
one produced by the upsert with the recomputed metadata. -/
theorem agentUpdateDoc_main (now : String) (d : Delta) (A : AgentsDoc) (u : Dict) (uid : Val)
    (hu : d.agent_update = some u) (hne : u ≠ []) (hid : aget u "id" = some uid)
    (htr : uid.truthy = true) :
    agentUpdateDoc now d A =
      { agents := upsertAgents u uid A.agents,
        meta := aset (aset A.meta "lastUpdate" (.str (d.timestamp.getD now)))
                  "agentCount" (.num (upsertAgents u uid A.agents).length) } := by
  unfold agentUpdateDoc
  rw [hu]
  simp [isEmpty_false_of_ne_nil hne, hid, htr]

/-- C5, counterexample data: the stored record. -/
def c5Record : Dict :=
  [("id", .str "a7"), ("name", .str "old-name"), ("world", .str "hub"),
   ("position", .obj [("x", .num 1), ("z", .num 2)]), ("status", .str "active")]

/-- C5, counterexample data: the upsert payload, which carries no `world`,
`position` or `status` field. -/
def c5Payload : Dict := [("id", .str "a7"), ("name", .str "new-name")]

/-- C5, counterexample data: initial state. -/
def c5State : WState :=
  { actionsDoc := ⟨[], []⟩, chatDoc := ⟨[], []⟩,
    agentsDoc := ⟨[c5Record], [("agentCount", .num 1)]⟩,
    worlds := [], feed := ⟨[]⟩ }

/-- C5, counterexample data: the delta carrying the upsert. -/
def c5Delta : Delta :=
  { agent_id := some "a7", timestamp := some "2026-02-11T19:20:44Z",
    actions := none, messages := none,
    agent_update := some c5Payload, objects := none, activities := none }

/-- C5, counterexample.  The claim states that after an `agent_update` whose
id matches an existing record, the stored record equals exactly the upsert
payload, so fields absent from the payload do not survive.  On the code the
upsert is `dict.update`: the payload's fields overwrite, but the old
record's `world`, `position` and `status` — absent from the payload —
survive, and the stored record is not the payload. -/
theorem agent_upsert_not_wholesale_counterexample :
    aget c5Payload "world" = none ∧
    (apply_delta "2026-02-11T19:30:00Z" c5Delta c5State).agentsDoc.agents
      = [[("id", .str "a7"), ("name", .str "new-name"), ("world", .str "hub"),
          ("position", .obj [("x", .num 1), ("z", .num 2)]), ("status", .str "active")]] ∧
    (apply_delta "2026-02-11T19:30:00Z" c5Delta c5State).agentsDoc.agents
      ≠ [c5Payload] := by
  refine ⟨by decide, by decide, by decide⟩

/-- C5 (amended): an `agent_update` whose id matches an existing record
merges the payload into that record via `dict.update` — for every field, the
stored value after the merge is the payload's value when the payload carries
the field, and the old record's value otherwise.  Fields present in the old
record but absent from the payload survive. -/
theorem agent_upsert_merges (now : String) (d : Delta) (s : WState) (u : Dict) (uid : Val)
    (hu : d.agent_update = some u) (hne : u ≠ []) (hid : aget u "id" = some uid)
    (htr : uid.truthy = true) (hnd : (keysOf u).Nodup)
    (pre post : List Dict) (a : Dict)
    (hsplit : s.agentsDoc.agents = pre ++ a :: post)
    (hpre : ∀ b ∈ pre, aget b "id" ≠ some uid) (ha : aget a "id" = some uid) :
    (apply_delta now d s).agentsDoc.agents = pre ++ dupdate a u :: post ∧
    ∀ k, aget (dupdate a u) k = (aget u k).or (aget a k) := by
  constructor
  · rw [apply_delta_agentsDoc, agentUpdateDoc_main now d _ u uid hu hne hid htr]
    simp only
    rw [hsplit, upsertAgents_replace_first u uid pre post a hpre ha]
  · intro k
    cases h : aget u k with
    | none => simp [Option.or, aget_dupdate_not_mem a u k h]
    | some v => simp [Option.or, aget_dupdate_mem a u k v hnd h]

/-- C5, witness for `agent_upsert_merges` at the counterexample input. -/
theorem agent_upsert_merges_witness :
    (apply_delta "2026-02-11T19:30:00Z" c5Delta c5State).agentsDoc.agents
        = [] ++ dupdate c5Record c5Payload :: [] ∧
    ∀ k, aget (dupdate c5Record c5Payload) k
        = (aget c5Payload k).or (aget c5Record k) :=
  agent_upsert_merges "2026-02-11T19:30:00Z" c5Delta c5State c5Payload (.str "a7")
    rfl (by decide) (by decide) (by decide) (by decide)
    [] [] c5Record (by decide) (by decide) (by decide)

/-- C10.  After every merge pass that applies an `agent_update` carrying a
truthy id (whether it inserts a new record or updates an existing one), the
agents document satisfies `_meta.agentCount = len(agents)`: the applier
recomputes the counter from the post-upsert cardinality. -/
theorem agentCount_recomputed (now : String) (d : Delta) (s : WState) (u : Dict) (uid : Val)
    (hu : d.agent_update = some u) (hne : u ≠ []) (hid : aget u "id" = some uid)
    (htr : uid.truthy = true) :
    aget (apply_delta now d s).agentsDoc.meta "agentCount"
      = some (.num ((apply_delta now d s).agentsDoc.agents.length : Int)) := by
  rw [apply_delta_agentsDoc, agentUpdateDoc_main now d _ u uid hu hne hid htr]
  simp only
  rw [aget_aset_same]

/-- C10, witness at the C5 counterexample input (an update of an existing
record; the counter stays equal to the number of stored agents). -/
theorem agentCount_recomputed_witness :
    aget (apply_delta "2026-02-11T19:30:00Z" c5Delta c5State).agentsDoc.meta "agentCount"
      = some (.num ((apply_delta "2026-02-11T19:30:00Z" c5Delta c5State).agentsDoc.agents.length : Int)) :=
  agentCount_recomputed "2026-02-11T19:30:00Z" c5Delta c5State c5Payload (.str "a7")
    rfl (by decide) (by decide) (by decide)

/-! ### C2 — re-applying an identical delta -/

/-- The effect of branch 4 on the worlds map alone. -/
def worldsStep (now : String) (d : Delta) (ws : List (String × ObjectsDoc)) :
    List (String × ObjectsDoc) :=
  match d.objects with
  | some od =>
    if od.entries.isEmpty then ws
    else
      let w := od.world.getD "hub"
      aset ws w (objectsDocStep (d.timestamp.getD now) (d.agent_id.getD "unknown")
        od.entries ((aget ws w).getD emptyObjectsDoc))
  | none => ws

theorem apply_objects_worlds_eq (now : String) (d : Delta) (s : WState) :
    (apply_objects now d s).worlds = worldsStep now d s.worlds := by
  unfold apply_objects worldsStep getWorld
  cases d.objects with
  | none => rfl
  | some od => by_cases he : od.entries.isEmpty <;> simp [he]

/-- Net effect of a whole delta application on the worlds map. -/
theorem apply_delta_worlds_eq (now : String) (d : Delta) (s : WState) :
    (apply_delta now d s).worlds = worldsStep now d s.worlds := by
  rw [apply_delta_worlds, apply_objects_worlds_eq,
      apply_agent_update_worlds, apply_messages_worlds, apply_actions_worlds]

/-- Entries re-filtered against a document that already absorbed them all
vanish: after the first append, every entry's id occurs among the stored
objects' ids. -/
theorem objectsStep_filter_nil (entries objs0 : List Dict) :
    entries.filter (fun o => decide ((aget o "id") ∉
        ((objs0 ++ entries.filter (fun o => decide ((aget o "id") ∉
            objs0.map (fun o => aget o "id")))).map (fun o => aget o "id")))) = [] := by
  rw [List.filter_eq_nil_iff]
  intro o ho
  simp only [decide_eq_true_eq, not_not, List.map_append, List.mem_append]
  by_cases h : aget o "id" ∈ objs0.map (fun o => aget o "id")
  · exact Or.inl h
  · refine Or.inr ?_
    exact List.mem_map_of_mem _ (List.mem_filter.mpr ⟨ho, by simpa using h⟩)

/-- Applying the object-append step twice with the same delta contents is
the same as applying it once: the second pass deduplicates every entry away
and rewrites the same metadata. -/
theorem objectsDocStep_idem (ts aid : String) (entries : List Dict) (doc : ObjectsDoc) :
    objectsDocStep ts aid entries (objectsDocStep ts aid entries doc)
      = objectsDocStep ts aid entries doc := by
  unfold objectsDocStep
  simp only
  set f : Dict → Option Val := fun o => aget o "id" with hf
  set new1 := entries.filter (fun o => decide ((aget o "id") ∉ doc.objects.map f)) with hnew1
  set meta1 := aset doc.meta "lastUpdated" (.str ts) with hmeta1
  set contrib1 := contribList (aget meta1 "contributors") with hcontrib1
  by_cases hmem : (Val.str aid) ∈ contrib1
  · -- the contributor was already recorded: meta2 = meta1
    simp only [hmem, if_true]
    have hfil : entries.filter (fun o => decide ((aget o "id") ∉
        ((doc.objects ++ new1).map f))) = [] := objectsStep_filter_nil entries doc.objects
    rw [hfil]
    have hlu : aget meta1 "lastUpdated" = some (.str ts) := aget_aset_same _ _ _
    have hset : aset meta1 "lastUpdated" (.str ts) = meta1 := aset_eq_of_aget _ _ _ hlu
    rw [hset]
    simp [← hcontrib1, hmem]
  · -- the contributor is appended on the first pass
    simp only [hmem, if_false]
    set meta2 := aset meta1 "contributors" (.arr (contrib1 ++ [Val.str aid])) with hmeta2
    have hfil : entries.filter (fun o => decide ((aget o "id") ∉
        ((doc.objects ++ new1).map f))) = [] := objectsStep_filter_nil entries doc.objects
    rw [hfil]
    have hlu : aget meta2 "lastUpdated" = some (.str ts) := by
      rw [hmeta2, aget_aset_ne _ _ _ _ (by decide), hmeta1, aget_aset_same]
    have hset : aset meta2 "lastUpdated" (.str ts) = meta2 := aset_eq_of_aget _ _ _ hlu
    rw [hset]
    have hc2 : contribList (aget meta2 "contributors") = contrib1 ++ [Val.str aid] := by
      rw [hmeta2, aget_aset_same, contribList]
    rw [hc2]
    have hmem2 : (Val.str aid) ∈ contrib1 ++ [Val.str aid] := by simp
    simp [hmem2]

/-- Applying the worlds step twice with the same delta is the same as
applying it once. -/
theorem worldsStep_idem (now1 now2 : String) (d : Delta)
    (ws : List (String × ObjectsDoc)) (hts : d.timestamp.isSome) :
    worldsStep now2 d (worldsStep now1 d ws) = worldsStep now1 d ws := by
  obtain ⟨ts, hts⟩ := Option.isSome_iff_exists.mp hts
  unfold worldsStep
  cases d.objects with
  | none => rfl
  | some od =>
    by_cases he : od.entries.isEmpty
    · simp [he]
    · have he' : od.entries.isEmpty = false := by rwa [Bool.not_eq_true] at he
      simp only [he', Bool.false_eq_true, if_false]
      rw [hts]
      simp only [Option.getD_some]
      set w := od.world.getD "hub" with hw
      set D1 := objectsDocStep ts (d.agent_id.getD "unknown") od.entries
        ((aget ws w).getD emptyObjectsDoc) with hD1
      have hg : aget (aset ws w D1) w = some D1 := aget_aset_same _ _ _
      rw [hg]
      simp only [Option.getD_some]
      rw [hD1, objectsDocStep_idem, ← hD1]
      exact aset_eq_of_aget _ _ _ hg

/-- Guard failures of branch 3 leave the agents document unchanged. -/
theorem agentUpdateDoc_noop (now : String) (d : Delta) (A : AgentsDoc)
    (h : ∀ u, d.agent_update = some u → u.isEmpty = true ∨ aget u "id" = none ∨
         ∃ uid, aget u "id" = some uid ∧ uid.truthy = false) :
    agentUpdateDoc now d A = A := by
  unfold agentUpdateDoc
  cases hu : d.agent_update with
  | none => rfl
  | some u =>
    rcases h u hu with he | hid | ⟨uid, hid, htr⟩
    · simp [he]
    · by_cases he : u.isEmpty
      · simp [he]
      · simp [he, hid]
    · by_cases he : u.isEmpty
      · simp [he]
      · simp [he, hid, htr]

/-- The second application of the upsert loop finds the freshly merged (or
appended) record and merges the same payload into it again, changing
nothing. -/
theorem upsertAgents_idem (u : Dict) (uid : Val) (l : List Dict)
    (hndu : (keysOf u).Nodup) (hid : aget u "id" = some uid) :
    upsertAgents u uid (upsertAgents u uid l) = upsertAgents u uid l := by
  induction l with
  | nil =>
    have h0 : upsertAgents u uid ([] : List Dict) = [u] := rfl
    rw [h0]
    simp [upsertAgents, hid, dupdate_self_of_sub u u
      (fun kv hkv => aget_of_mem_nodup u kv hndu hkv)]
  | cons a rest ih =>
    by_cases hmatch : aget a "id" = some uid
    · simp only [upsertAgents, hmatch, if_true]
      have hid2 : aget (dupdate a u) "id" = some uid :=
        aget_dupdate_mem a u "id" uid hndu hid
      simp [upsertAgents, hid2, dupdate_dupdate_self a u hndu]
    · simp only [upsertAgents, hmatch, if_false]
      simp [upsertAgents, hmatch, ih]

/-- Re-applying the same delta leaves the agents document unchanged. -/
theorem agentUpdateDoc_idem (now1 now2 : String) (d : Delta) (A : AgentsDoc)
    (hts : d.timestamp.isSome)
    (hnd : ∀ u, d.agent_update = some u → (keysOf u).Nodup) :
    agentUpdateDoc now2 d (agentUpdateDoc now1 d A) = agentUpdateDoc now1 d A := by
  obtain ⟨ts, hts⟩ := Option.isSome_iff_exists.mp hts
  by_cases hmain : ∃ u, d.agent_update = some u ∧ u.isEmpty = false ∧
      ∃ uid, aget u "id" = some uid ∧ uid.truthy = true
  · obtain ⟨u, hu, he, uid, hid, htr⟩ := hmain
    have hne : u ≠ [] := by
      intro h
      rw [h] at he
      simp at he
    have hndu : (keysOf u).Nodup := hnd u hu
    rw [agentUpdateDoc_main now1 d A u uid hu hne hid htr,
        agentUpdateDoc_main now2 d _ u uid hu hne hid htr]
    simp only [hts, Option.getD_some]
    rw [upsertAgents_idem u uid A.agents hndu hid]
    have hlu : aget (aset (aset A.meta "lastUpdate" (.str ts)) "agentCount"
        (.num (upsertAgents u uid A.agents).length)) "lastUpdate" = some (.str ts) := by
      rw [aget_aset_ne _ _ _ _ (by decide), aget_aset_same]
    rw [aset_eq_of_aget _ _ _ hlu, aset_eq_of_aget _ _ _ (aget_aset_same _ _ _)]
  · have hno : ∀ u, d.agent_update = some u → u.isEmpty = true ∨ aget u "id" = none ∨
        ∃ uid, aget u "id" = some uid ∧ uid.truthy = false := by
      intro u hu
      by_cases he : u.isEmpty
      · exact Or.inl he
      · have he' : u.isEmpty = false := by rwa [Bool.not_eq_true] at he
        cases hid : aget u "id" with
        | none => exact Or.inr (Or.inl rfl)
        | some uid =>
          by_cases htr : uid.truthy
          · exfalso
            apply hmain
            refine ⟨u, hu, he', uid, ?_, htr⟩
            exact hid
          · exact Or.inr (Or.inr ⟨uid, rfl, by rwa [Bool.not_eq_true] at htr⟩)
    rw [agentUpdateDoc_noop now2 d _ hno, agentUpdateDoc_noop now1 d A hno]

/-- C2, counterexample data: an empty initial state. -/
def c2State : WState :=
  { actionsDoc := ⟨[], []⟩, chatDoc := ⟨[], []⟩, agentsDoc := ⟨[], []⟩,
    worlds := [], feed := ⟨[]⟩ }

/-- C2, counterexample data: a delta with one action entry. -/
def c2Delta : Delta :=
  { agent_id := some "alice", timestamp := some "2026-02-11T19:20:44Z",
    actions := some [.obj [("id", .str "act-1"), ("type", .str "move")]],
    messages := none, agent_update := none, objects := none, activities := none }

/-- C2, counterexample.  The claim states that re-applying an
already-applied delta yields a uniqueness violation and leaves every
document byte-for-byte unchanged.  On the code, `apply_delta` has no
uniqueness check on log entries: re-applying the identical delta appends its
action a second time — the log doubles and the state is not unchanged. -/
theorem apply_delta_reapply_counterexample :
    (apply_delta "2026-02-11T19:30:00Z" c2Delta c2State).actionsDoc.entries.length = 1 ∧
    (apply_delta "2026-02-11T19:40:00Z" c2Delta
        (apply_delta "2026-02-11T19:30:00Z" c2Delta c2State)).actionsDoc.entries.length = 2 ∧
    apply_delta "2026-02-11T19:40:00Z" c2Delta
        (apply_delta "2026-02-11T19:30:00Z" c2Delta c2State)
      ≠ apply_delta "2026-02-11T19:30:00Z" c2Delta c2State := by
  refine ⟨by decide, by decide, by decide⟩

/-- C2 (amended): re-applying an identical delta (one that declares a
timestamp) produces no violation — the applier has no error channel — and is
a no-op only for the agents document and the world-object documents (objects
are deduplicated by id against the already-stored entries, the agent merge
and the metadata writes are idempotent); the delta's actions, messages and
activities are appended a second time, duplicating those log entries. -/
theorem apply_delta_reapply (now1 now2 : String) (d : Delta) (s : WState)
    (hts : d.timestamp.isSome)
    (hnd : ∀ u, d.agent_update = some u → (keysOf u).Nodup) :
    (apply_delta now2 d (apply_delta now1 d s)).actionsDoc.entries
        = s.actionsDoc.entries ++ d.actions.getD [] ++ d.actions.getD [] ∧
    (apply_delta now2 d (apply_delta now1 d s)).chatDoc.entries
        = s.chatDoc.entries ++ d.messages.getD [] ++ d.messages.getD [] ∧
    (apply_delta now2 d (apply_delta now1 d s)).feed.activities
        = s.feed.activities ++ d.activities.getD [] ++ d.activities.getD [] ∧
    (apply_delta now2 d (apply_delta now1 d s)).agentsDoc
        = (apply_delta now1 d s).agentsDoc ∧
    (apply_delta now2 d (apply_delta now1 d s)).worlds
        = (apply_delta now1 d s).worlds := by
  refine ⟨?_, ?_, ?_, ?_, ?_⟩
  · rw [apply_delta_actions_entries, apply_delta_actions_entries]
  · rw [apply_delta_chat_entries, apply_delta_chat_entries]
  · rw [apply_delta_feed, apply_delta_feed]
  · rw [apply_delta_agentsDoc, apply_delta_agentsDoc]
    exact agentUpdateDoc_idem now1 now2 d s.agentsDoc hts hnd
  · rw [apply_delta_worlds_eq, apply_delta_worlds_eq]
    exact worldsStep_idem now1 now2 d s.worlds hts

/-- C2, witness for `apply_delta_reapply` at the counterexample input. -/
theorem apply_delta_reapply_witness :
    (apply_delta "t2" c2Delta (apply_delta "t1" c2Delta c2State)).actionsDoc.entries
        = c2State.actionsDoc.entries ++ c2Delta.actions.getD [] ++ c2Delta.actions.getD [] ∧
    (apply_delta "t2" c2Delta (apply_delta "t1" c2Delta c2State)).chatDoc.entries
        = c2State.chatDoc.entries ++ c2Delta.messages.getD [] ++ c2Delta.messages.getD [] ∧
    (apply_delta "t2" c2Delta (apply_delta "t1" c2Delta c2State)).feed.activities
        = c2State.feed.activities ++ c2Delta.activities.getD [] ++ c2Delta.activities.getD [] ∧
    (apply_delta "t2" c2Delta (apply_delta "t1" c2Delta c2State)).agentsDoc
        = (apply_delta "t1" c2Delta c2State).agentsDoc ∧
    (apply_delta "t2" c2Delta (apply_delta "t1" c2Delta c2State)).worlds
        = (apply_delta "t1" c2Delta c2State).worlds :=
  apply_delta_reapply "t1" "t2" c2Delta c2State (by decide)
    (by intro u hu; simp [c2Delta] at hu)

/-! ### C4 — deterministic ordering of pending deltas

`main` in `scripts/apply_deltas.py` (lines 161–179) enumerates the inbox with
`sorted(INBOX_DIR.glob("*.json"))` — a sort by file name, which is the
delta's unique id — and then stable-sorts the files by the delta's declared
`timestamp` string, defaulting to `"9999"` when absent.  Python's sort is
stable, so ties in the timestamp keep the name order, and the result is the
lexicographic (timestamp, id) order.  Mathlib's `insertionSort` inserts
earlier elements in front of later equal-key elements, which is exactly this
stability. -/

/-- A pending delta file: its inbox file name (the delta's unique id) and
its declared timestamp, if any. -/
structure DFile where
  name : String
  timestamp : Option String
deriving DecidableEq, Repr

/-- The sort key of `main`: `data.get("timestamp", "9999")` (line 175). -/
def sortKey (f : DFile) : String := f.timestamp.getD "9999"

/-- Comparison used by the stable timestamp sort (line 177). -/
def tsLe (a b : DFile) : Prop := sortKey a ≤ sortKey b

/-- Comparison used by the initial filename enumeration (line 161). -/
def nameLe (a b : DFile) : Prop := a.name ≤ b.name

instance : DecidableRel tsLe := fun a b => inferInstanceAs (Decidable (sortKey a ≤ sortKey b))

instance : DecidableRel nameLe := fun a b => inferInstanceAs (Decidable (a.name ≤ b.name))

instance : IsTotal DFile tsLe := ⟨fun _ _ => le_total _ _⟩

instance : IsTrans DFile tsLe := ⟨fun _ _ _ => le_trans⟩

instance : IsTotal DFile nameLe := ⟨fun _ _ => le_total _ _⟩

instance : IsTrans DFile nameLe := ⟨fun _ _ _ => le_trans⟩

/-- The order in which `main` processes pending deltas: sort by file name,
then stable-sort by declared timestamp. -/
def pendingOrder (l : List DFile) : List DFile :=
  List.insertionSort tsLe (List.insertionSort nameLe l)

/-- The lexicographic (timestamp, id) order the spec announces. -/
def lexLe (a b : DFile) : Prop :=
  sortKey a < sortKey b ∨ (sortKey a = sortKey b ∧ a.name ≤ b.name)

/-- The strict lexicographic (timestamp, id) order. -/
def lexLt (a b : DFile) : Prop :=
  sortKey a < sortKey b ∨ (sortKey a = sortKey b ∧ a.name < b.name)

instance : IsAntisymm DFile lexLt := ⟨by
  intro a b h1 h2
  exfalso
  rcases h1 with h1 | ⟨he1, h1⟩ <;> rcases h2 with h2 | ⟨he2, h2⟩
  · exact lt_asymm h1 h2
  · rw [he2] at h1; exact lt_irrefl _ h1
  · rw [he1] at h2; exact lt_irrefl _ h2
  · exact lt_asymm h1 h2⟩

theorem pairwise_conj {α : Type} {R S : α → α → Prop} :
    ∀ {l : List α}, l.Pairwise R → l.Pairwise S →
      l.Pairwise (fun a b => R a b ∧ S a b) := by
  intro l hR hS
  induction l with
  | nil => exact List.Pairwise.nil
  | cons a t ih =>
    obtain ⟨hRa, hRt⟩ := List.pairwise_cons.mp hR
    obtain ⟨hSa, hSt⟩ := List.pairwise_cons.mp hS
    exact List.pairwise_cons.mpr ⟨fun b hb => ⟨hRa b hb, hSa b hb⟩, ih hRt hSt⟩

/-- Inserting an element whose name precedes every name of a lex-sorted list
by the timestamp order keeps the list lex-sorted (the stability argument). -/
theorem orderedInsert_lex_sorted (a : DFile) (m : List DFile)
    (hs : m.Sorted lexLe) (hmin : ∀ b ∈ m, a.name ≤ b.name) :
    (List.orderedInsert tsLe a m).Sorted lexLe := by
  induction m with
  | nil => simp [List.orderedInsert, List.sorted_singleton]
  | cons b m ih =>
    rw [List.orderedInsert]
    by_cases hab : tsLe a b
    · rw [if_pos hab]
      refine List.sorted_cons.mpr ⟨?_, hs⟩
      intro x hx
      rcases List.mem_cons.mp hx with rfl | hx
      · rcases lt_or_eq_of_le hab with h | h
        · exact Or.inl h
        · exact Or.inr ⟨h, hmin x (by simp)⟩
      · have hbx : lexLe b x := List.rel_of_sorted_cons hs x hx
        have hbxle : sortKey b ≤ sortKey x := by
          rcases hbx with h | ⟨he, _⟩
          · exact le_of_lt h
          · exact le_of_eq he
        have hax : sortKey a ≤ sortKey x := le_trans hab hbxle
        rcases lt_or_eq_of_le hax with h | h
        · exact Or.inl h
        · exact Or.inr ⟨h, hmin x (by simp [hx])⟩
    · rw [if_neg hab]
      have hba : sortKey b < sortKey a := lt_of_not_le hab
      refine List.sorted_cons.mpr ⟨?_, ih (List.sorted_cons.mp hs).2
        (fun c hc => hmin c (by simp [hc]))⟩
      intro x hx
      rcases (List.mem_orderedInsert tsLe).mp hx with rfl | hx
      · exact Or.inl hba
      · exact List.rel_of_sorted_cons hs x hx

/-- Stable-sorting a name-sorted list by timestamp yields the lexicographic
(timestamp, name) order. -/
theorem insertionSort_lex_sorted (l : List DFile) (hs : l.Sorted nameLe) :
    (List.insertionSort tsLe l).Sorted lexLe := by
  induction l with
  | nil => exact List.sorted_nil
  | cons a t ih =>
    rw [List.insertionSort]
    apply orderedInsert_lex_sorted
    · exact ih (List.sorted_cons.mp hs).2
    · intro b hb
      exact (List.sorted_cons.mp hs).1 b ((List.mem_insertionSort tsLe).mp hb)

/-- C4.  The merge pass applies pending deltas in ascending order of the
declared timestamp, breaking ties by the delta's own id (its inbox file
name): the processing order is a permutation of the pending set, it is
sorted by the lexicographic (timestamp, id) order, and — given that inbox
file names are unique — it is the same for every enumeration order of the
pending files. -/
theorem pendingOrder_deterministic (l : List DFile) (hnd : (l.map DFile.name).Nodup) :
    List.Perm (pendingOrder l) l ∧ (pendingOrder l).Sorted lexLe ∧
    ∀ l', List.Perm l' l → pendingOrder l' = pendingOrder l := by
  have hperm : ∀ m : List DFile, List.Perm (pendingOrder m) m := fun m =>
    (List.perm_insertionSort tsLe _).trans (List.perm_insertionSort nameLe m)
  have hsorted : ∀ m : List DFile, (pendingOrder m).Sorted lexLe := fun m =>
    insertionSort_lex_sorted _ (List.sorted_insertionSort nameLe m)
  refine ⟨hperm l, hsorted l, ?_⟩
  intro l' hl'
  have hne : l.Pairwise (fun a b => a.name ≠ b.name) := List.pairwise_map.mp hnd
  have key : ∀ m : List DFile, List.Perm m l → (pendingOrder m).Sorted lexLt := by
    intro m hm
    have hperm2 : List.Perm (pendingOrder m) l := (hperm m).trans hm
    have hne2 : (pendingOrder m).Pairwise (fun a b => a.name ≠ b.name) :=
      (List.Perm.pairwise_iff (fun h => Ne.symm h) hperm2).mpr hne
    refine (pairwise_conj (hsorted m) hne2).imp ?_
    rintro a b ⟨hlex, hnab⟩
    rcases hlex with h | ⟨he, hle⟩
    · exact Or.inl h
    · exact Or.inr ⟨he, lt_of_le_of_ne hle hnab⟩
  exact List.eq_of_perm_of_sorted ((hperm l').trans (hl'.trans (hperm l).symm))
    (key l' hl') (key l (List.Perm.refl l))

/-- C4, witness: three pending deltas, two of which tie on the timestamp,
enumerated in an arbitrary order. -/
theorem pendingOrder_deterministic_witness :
    List.Perm
        (pendingOrder [⟨"b.json", some "2026-02-11T10:00:00Z"⟩,
                       ⟨"a.json", some "2026-02-11T10:00:00Z"⟩,
                       ⟨"c.json", some "2026-02-10T09:00:00Z"⟩])
        [⟨"b.json", some "2026-02-11T10:00:00Z"⟩,
         ⟨"a.json", some "2026-02-11T10:00:00Z"⟩,
         ⟨"c.json", some "2026-02-10T09:00:00Z"⟩] ∧
    (pendingOrder [⟨"b.json", some "2026-02-11T10:00:00Z"⟩,
                   ⟨"a.json", some "2026-02-11T10:00:00Z"⟩,
                   ⟨"c.json", some "2026-02-10T09:00:00Z"⟩]).Sorted lexLe ∧
    ∀ l', List.Perm l' [⟨"b.json", some "2026-02-11T10:00:00Z"⟩,
                        ⟨"a.json", some "2026-02-11T10:00:00Z"⟩,
                        ⟨"c.json", some "2026-02-10T09:00:00Z"⟩] →
      pendingOrder l' = pendingOrder [⟨"b.json", some "2026-02-11T10:00:00Z"⟩,
                                      ⟨"a.json", some "2026-02-11T10:00:00Z"⟩,
                                      ⟨"c.json", some "2026-02-10T09:00:00Z"⟩] :=
  pendingOrder_deterministic _ (by decide)

/-! ### The delta validator: `scripts/validate_delta.py`

`validate_delta` (lines 31–103) parses one inbox file and appends messages
to a global error list; it returns `None`.  The embedding returns the list
of collected violations, or a `PyErr` when the source would raise an
uncaught exception (the `try` at lines 33–38 catches only
`json.JSONDecodeError`, and the timestamp `try` at lines 46–49 catches only
`ValueError` and `AttributeError`; a `TypeError` — e.g. from `"agent_id" not
in delta` when the parsed document is a number — propagates).  Python's `in`
and subscription are modelled per value shape: on strings `in` is substring
search and subscription by a string key raises; on lists `in` is element
membership and string subscription raises; on numbers, booleans and `None`
both raise `TypeError`.  The stdlib ISO-8601 parser is abstracted as the
boolean oracle `iso`. -/

/-- An uncaught Python exception of the validators. -/
inductive PyErr where
  | typeError : PyErr
  | keyError : PyErr
  | attributeError : PyErr
deriving DecidableEq, Repr

def hasSubstrAux (p : List Char) : List Char → Bool
  | [] => p.isEmpty
  | c :: t => p.isPrefixOf (c :: t) || hasSubstrAux p t

/-- Python's substring test `pat in s`. -/
def hasSubstr (pat s : String) : Bool := hasSubstrAux pat.toList s.toList

/-- Python's `k in v` on a JSON value. -/
def pyIn (k : String) : Val → Except PyErr Bool
  | .obj fs => .ok (aget fs k).isSome
  | .arr xs => .ok (xs.any (fun v => decide (v = .str k)))
  | .str s => .ok (hasSubstr k s)
  | _ => .error .typeError

/-- Python's `v[k]` on a JSON value, with a string key. -/
def pyIndex (k : String) : Val → Except PyErr Val
  | .obj fs =>
    match aget fs k with
    | some v => .ok v
    | none => .error .keyError
  | _ => .error .typeError

/-- Python's `v in {set of strings}`: strings test membership, other
hashable values are simply not members, unhashable values (lists, dicts)
raise `TypeError`. -/
def pySetMem (v : Val) (s : List String) : Except PyErr Bool :=
  match v with
  | .str t => .ok (s.any (fun x => decide (x = t)))
  | .arr _ => .error .typeError
  | .obj _ => .error .typeError
  | _ => .ok false

/-- Python's `for x in v`: lists iterate elements, strings iterate
characters, dicts iterate keys, anything else raises `TypeError`. -/
def pyIter : Val → Except PyErr (List Val)
  | .arr xs => .ok xs
  | .str s => .ok (s.toList.map (fun c => .str (String.mk [c])))
  | .obj fs => .ok (fs.map (fun p => .str p.1))
  | _ => .error .typeError

/-- The violations `validate_delta` can append, one constructor per `error()`
call site, carrying the variable data of its message. -/
inductive DViol where
  | invalidJson : DViol
  | missingAgentId : DViol
  | missingTimestamp : DViol
  | invalidTimestamp : DViol
  | noDeltaContent : DViol
  | actionsNotArray : DViol
  | actionMissingId : DViol
  | actionMissingType : DViol
  | invalidActionType : Val → DViol
  | messagesNotArray : DViol
  | messageMissingId : DViol
  | messageMissingContent : DViol
  | agentUpdateNotObject : DViol
  | agentUpdateMissingId : DViol
  | objectsNotObject : DViol
  | invalidObjectsWorld : DViol
  | entriesNotArray : DViol
  | objectEntryMissingId : DViol
deriving DecidableEq, Repr

/-- The closed world set of `validate_delta.py` line 17. -/
def VALID_WORLDS : List String := ["hub", "arena", "marketplace", "gallery", "dungeon"]

/-- The closed action-type set of `validate_delta.py` lines 18–22. -/
def VALID_ACTION_TYPES : List String :=
  ["move", "chat", "emote", "spawn", "despawn", "interact", "trade_offer",
   "trade_accept", "trade_decline", "battle_challenge", "battle_action",
   "place_object", "teach"]

/-- Lines 45–49: parse the timestamp; a non-string raises `AttributeError`
at `.replace`, a bad string raises `ValueError` at `fromisoformat` — both
caught and turned into the same violation. -/
def checkTimestampVal (iso : String → Bool) : Val → List DViol
  | .str s => if iso s then [] else [DViol.invalidTimestamp]
  | _ => [DViol.invalidTimestamp]

/-- Lines 61–67: per-action checks. -/
def checkAction (a : Val) : Except PyErr (List DViol) := do
  let hasId ← pyIn "id" a
  let e1 := if hasId then [] else [DViol.actionMissingId]
  let hasTy ← pyIn "type" a
  if hasTy then do
    let tv ← pyIndex "type" a
    let m ← pySetMem tv VALID_ACTION_TYPES
    pure (e1 ++ if m then [] else [DViol.invalidActionType tv])
  else
    pure (e1 ++ [DViol.actionMissingType])

/-- Lines 74–78: per-message checks. -/
def checkMessage (m : Val) : Except PyErr (List DViol) := do
  let hasId ← pyIn "id" m
  let hasContent ← pyIn "content" m
  pure ((if hasId then [] else [DViol.messageMissingId]) ++
        (if hasContent then [] else [DViol.messageMissingContent]))

/-- Lines 99–101: per-object-entry check. -/
def checkObjectEntry (e : Val) : Except PyErr (List DViol) := do
  let hasId ← pyIn "id" e
  pure (if hasId then [] else [DViol.objectEntryMissingId])

/-- Run a per-entry check over a list, concatenating the violations (the
`for` loops of the source). -/
def checkEntriesList (chk : Val → Except PyErr (List DViol)) :
    List Val → Except PyErr (List DViol)
  | [] => .ok []
  | v :: t => do
    let e1 ← chk v
    let e2 ← checkEntriesList chk t
    pure (e1 ++ e2)

/-- Line 53: `any(k in delta for k in delta_keys)`, short-circuiting. -/
def pyAnyKey (delta : Val) : List String → Except PyErr Bool
  | [] => .ok false
  | k :: t => do
    let b ← pyIn k delta
    if b then pure true else pyAnyKey delta t

/-- Lines 40–49: the required-field checks (`agent_id` presence, `timestamp`
presence and format). -/
def checkRequired (iso : String → Bool) (delta : Val) : Except PyErr (List DViol) := do
  let hasAgent ← pyIn "agent_id" delta
  let e1 := if hasAgent then [] else [DViol.missingAgentId]
  let hasTs ← pyIn "timestamp" delta
  let e2 ← if hasTs then do
      let tv ← pyIndex "timestamp" delta
      pure (checkTimestampVal iso tv)
    else pure [DViol.missingTimestamp]
  pure (e1 ++ e2)

/-- Lines 56–67: the `actions` section. -/
def checkActionsSection (delta : Val) : Except PyErr (List DViol) := do
  let hasActions ← pyIn "actions" delta
  if hasActions then do
    let av ← pyIndex "actions" delta
    match av with
    | .arr xs => checkEntriesList checkAction xs
    | _ => pure [DViol.actionsNotArray]
  else pure []

/-- Lines 69–78: the `messages` section. -/
def checkMessagesSection (delta : Val) : Except PyErr (List DViol) := do
  let hasMsgs ← pyIn "messages" delta
  if hasMsgs then do
    let mv ← pyIndex "messages" delta
    match mv with
    | .arr xs => checkEntriesList checkMessage xs
    | _ => pure [DViol.messagesNotArray]
  else pure []

/-- Lines 80–85: the `agent_update` section. -/
def checkAgentUpdateSection (delta : Val) : Except PyErr (List DViol) := do
  let hasAU ← pyIn "agent_update" delta
  if hasAU then do
    let v ← pyIndex "agent_update" delta
    match v with
    | .obj g => pure (if (aget g "id").isSome then [] else [DViol.agentUpdateMissingId])
    | _ => pure [DViol.agentUpdateNotObject]
  else pure []

/-- Lines 93–95: `world = obj.get("world"); if not world or world not in
VALID_WORLDS` — `True` means the world is rejected.  The set-membership test
raises on an unhashable (truthy list/dict) world. -/
def checkWorldVal : Option Val → Except PyErr Bool
  | none => pure true
  | some wv =>
    if wv.truthy then do
      let m ← pySetMem wv VALID_WORLDS
      pure (!m)
    else pure true

/-- Lines 87–101: the `objects` section. -/
def checkObjectsSection (delta : Val) : Except PyErr (List DViol) := do
  let hasObjs ← pyIn "objects" delta
  if hasObjs then do
    let ov ← pyIndex "objects" delta
    match ov with
    | .obj ofs => do
      let wbad ← checkWorldVal (aget ofs "world")
      let e7a := if wbad then [DViol.invalidObjectsWorld] else []
      let entries := (aget ofs "entries").getD (.arr [])
      let e7b := match entries with
        | .arr _ => ([] : List DViol)
        | _ => [DViol.entriesNotArray]
      let items ← pyIter entries
      let e7c ← checkEntriesList checkObjectEntry items
      pure (e7a ++ e7b ++ e7c)
    | _ => pure [DViol.objectsNotObject]
  else pure []

/-- The whole of `validate_delta` (lines 31–103) on one parsed inbox file;
`none` models a `json.JSONDecodeError` (caught: one violation, early
return).  The five commented blocks of the source appear as the section
functions in source order. -/
def validate_delta (iso : String → Bool) : Option Val → Except PyErr (List DViol)
  | none => .ok [DViol.invalidJson]
  | some delta => do
    let e12 ← checkRequired iso delta
    let anyKey ← pyAnyKey delta ["actions", "messages", "agent_update", "objects", "activities"]
    let e3 := if anyKey then [] else [DViol.noDeltaContent]
    let e4 ← checkActionsSection delta
    let e5 ← checkMessagesSection delta
    let e6 ← checkAgentUpdateSection delta
    let e7 ← checkObjectsSection delta
    pure (e12 ++ e3 ++ e4 ++ e5 ++ e6 ++ e7)

/-! ### C6 — totality and exhaustiveness of the delta validator -/

/-- Values Python can hash (members of sets); lists and dicts are not. -/
def hashableVal : Val → Bool
  | .arr _ => false
  | .obj _ => false
  | _ => true

def isObjVal : Val → Bool
  | .obj _ => true
  | _ => false

/-- A per-action shape on which the source's action loop cannot raise: a
JSON object whose `type` value, if any, is hashable. -/
def safeAction (a : Val) : Bool :=
  match a with
  | .obj fs =>
    match aget fs "type" with
    | some t => hashableVal t
    | none => true
  | _ => false

/-- A top-level object shape on which `validate_delta` cannot raise: actions
are objects with hashable `type` values, messages are objects, and the
`objects` section has a hashable world and iterable entries of object
shape. -/
def safeDeltaObj (fs : Dict) : Bool :=
  (match aget fs "actions" with
   | some (.arr xs) => xs.all safeAction
   | _ => true) &&
  (match aget fs "messages" with
   | some (.arr xs) => xs.all isObjVal
   | _ => true) &&
  (match aget fs "objects" with
   | some (.obj ofs) =>
     (match aget ofs "world" with
      | some w => !w.truthy || hashableVal w
      | none => true) &&
     (match (aget ofs "entries").getD (.arr []) with
      | .arr es => es.all isObjVal
      | .obj _ => true
      | .str _ => true
      | _ => false)
   | _ => true)

/-- The violations of one safe action entry. -/
def checkActionOk (a : Val) : List DViol :=
  match a with
  | .obj fs =>
    (if (aget fs "id").isSome then [] else [DViol.actionMissingId]) ++
    (match aget fs "type" with
     | some (.str s) =>
        if VALID_ACTION_TYPES.any (fun x => decide (x = s)) then []
        else [DViol.invalidActionType (.str s)]
     | some t => [DViol.invalidActionType t]
     | none => [DViol.actionMissingType])
  | _ => []

/-- The violations of one object-shaped message entry. -/
def checkMessageOk (m : Val) : List DViol :=
  match m with
  | .obj fs =>
    (if (aget fs "id").isSome then [] else [DViol.messageMissingId]) ++
    (if (aget fs "content").isSome then [] else [DViol.messageMissingContent])
  | _ => []

/-- The violation of one object-shaped world-object entry. -/
def checkObjectEntryOk (e : Val) : List DViol :=
  match e with
  | .obj fs => if (aget fs "id").isSome then [] else [DViol.objectEntryMissingId]
  | .str s => if hasSubstr "id" s then [] else [DViol.objectEntryMissingId]
  | _ => []

def concatMapViol (f : Val → List DViol) : List Val → List DViol
  | [] => []
  | v :: t => f v ++ concatMapViol f t

theorem checkAction_safe (a : Val) (h : safeAction a = true) :
    checkAction a = .ok (checkActionOk a) := by
  cases a with
  | obj fs =>
    cases hty : aget fs "type" with
    | none =>
      simp [checkAction, checkActionOk, pyIn, hty, Bind.bind, Except.bind, pure, Except.pure]
    | some t =>
      have hhash : hashableVal t = true := by
        have := h
        simp only [safeAction, hty] at this
        exact this
      cases t with
      | str s =>
        simp [checkAction, checkActionOk, pyIn, pyIndex, pySetMem, hty,
              Bind.bind, Except.bind, pure, Except.pure]
      | num n =>
        simp [checkAction, checkActionOk, pyIn, pyIndex, pySetMem, hty,
              Bind.bind, Except.bind, pure, Except.pure]
      | bool b =>
        simp [checkAction, checkActionOk, pyIn, pyIndex, pySetMem, hty,
              Bind.bind, Except.bind, pure, Except.pure]
      | null =>
        simp [checkAction, checkActionOk, pyIn, pyIndex, pySetMem, hty,
              Bind.bind, Except.bind, pure, Except.pure]
      | arr xs => simp [hashableVal] at hhash
      | obj g => simp [hashableVal] at hhash
  | null => simp [safeAction] at h
  | bool b => simp [safeAction] at h
  | num n => simp [safeAction] at h
  | str s => simp [safeAction] at h
  | arr xs => simp [safeAction] at h

theorem checkMessage_safe (m : Val) (h : isObjVal m = true) :
    checkMessage m = .ok (checkMessageOk m) := by
  cases m with
  | obj fs =>
    simp [checkMessage, checkMessageOk, pyIn, Bind.bind, Except.bind, pure, Except.pure]
  | null => simp [isObjVal] at h
  | bool b => simp [isObjVal] at h
  | num n => simp [isObjVal] at h
  | str s => simp [isObjVal] at h
  | arr xs => simp [isObjVal] at h

theorem checkObjectEntry_safe (e : Val) (h : isObjVal e = true ∨ ∃ s, e = .str s) :
    checkObjectEntry e = .ok (checkObjectEntryOk e) := by
  cases e with
  | obj fs =>
    simp [checkObjectEntry, checkObjectEntryOk, pyIn, Bind.bind, Except.bind, pure, Except.pure]
  | str s =>
    simp [checkObjectEntry, checkObjectEntryOk, pyIn, Bind.bind, Except.bind, pure, Except.pure]
  | null => rcases h with h | ⟨s, h⟩ <;> simp [isObjVal] at h
  | bool b => rcases h with h | ⟨s, h⟩ <;> simp [isObjVal] at h
  | num n => rcases h with h | ⟨s, h⟩ <;> simp [isObjVal] at h
  | arr xs => rcases h with h | ⟨s, h⟩ <;> simp [isObjVal] at h

theorem checkEntriesList_ok (chk : Val → Except PyErr (List DViol))
    (chkOk : Val → List DViol) (xs : List Val)
    (h : ∀ v ∈ xs, chk v = .ok (chkOk v)) :
    checkEntriesList chk xs = .ok (concatMapViol chkOk xs) := by
  induction xs with
  | nil => rfl
  | cons v t ih =>
    have hv : chk v = .ok (chkOk v) := h v (by simp)
    have ht : ∀ w ∈ t, chk w = .ok (chkOk w) := fun w hw => h w (by simp [hw])
    simp [checkEntriesList, concatMapViol, hv, ih ht, Bind.bind, Except.bind, pure, Except.pure]

/-- Pure value of `pyIter` on iterable values. -/
def pyIterOk : Val → List Val
  | .arr xs => xs
  | .str s => s.toList.map (fun c => .str (String.mk [c]))
  | .obj fs => fs.map (fun p => .str p.1)
  | _ => []

/-- Pure value of the `objects.world` test on safe worlds. -/
def worldBadOk : Option Val → Bool
  | none => true
  | some wv =>
    if wv.truthy then
      match wv with
      | .str s => !(VALID_WORLDS.any (fun x => decide (x = s)))
      | _ => true
    else true

/-- Pure value of the required-field checks on an object delta. -/
def requiredOk (iso : String → Bool) (fs : Dict) : List DViol :=
  (if (aget fs "agent_id").isSome then [] else [DViol.missingAgentId]) ++
  (match aget fs "timestamp" with
   | some tv => checkTimestampVal iso tv
   | none => [DViol.missingTimestamp])

/-- Pure value of the `actions` section on a safe object delta. -/
def actionsSectionOk (fs : Dict) : List DViol :=
  match aget fs "actions" with
  | some (.arr xs) => concatMapViol checkActionOk xs
  | some _ => [DViol.actionsNotArray]
  | none => []

/-- Pure value of the `messages` section on a safe object delta. -/
def messagesSectionOk (fs : Dict) : List DViol :=
  match aget fs "messages" with
  | some (.arr xs) => concatMapViol checkMessageOk xs
  | some _ => [DViol.messagesNotArray]
  | none => []

/-- Pure value of the `agent_update` section on an object delta. -/
def agentUpdateSectionOk (fs : Dict) : List DViol :=
  match aget fs "agent_update" with
  | some (.obj g) => if (aget g "id").isSome then [] else [DViol.agentUpdateMissingId]
  | some _ => [DViol.agentUpdateNotObject]
  | none => []

/-- Pure value of the `objects` section on a safe object delta. -/
def objectsSectionOk (fs : Dict) : List DViol :=
  match aget fs "objects" with
  | some (.obj ofs) =>
    (if worldBadOk (aget ofs "world") then [DViol.invalidObjectsWorld] else []) ++
    (match (aget ofs "entries").getD (.arr []) with
     | .arr _ => ([] : List DViol)
     | _ => [DViol.entriesNotArray]) ++
    concatMapViol checkObjectEntryOk (pyIterOk ((aget ofs "entries").getD (.arr [])))
  | some _ => [DViol.objectsNotObject]
  | none => []

/-- The full list of violations `validate_delta` collects on a safe object
delta. -/
def validate_deltaOk (iso : String → Bool) (fs : Dict) : List DViol :=
  requiredOk iso fs ++
  (if ["actions", "messages", "agent_update", "objects", "activities"].any
      (fun k => (aget fs k).isSome) then [] else [DViol.noDeltaContent]) ++
  actionsSectionOk fs ++ messagesSectionOk fs ++
  agentUpdateSectionOk fs ++ objectsSectionOk fs

theorem checkRequired_obj (iso : String → Bool) (fs : Dict) :
    checkRequired iso (.obj fs) = .ok (requiredOk iso fs) := by
  cases hts : aget fs "timestamp" with
  | none =>
    simp [checkRequired, requiredOk, pyIn, pyIndex, hts,
          Bind.bind, Except.bind, pure, Except.pure]
  | some tv =>
    simp [checkRequired, requiredOk, pyIn, pyIndex, hts,
          Bind.bind, Except.bind, pure, Except.pure]

theorem pyAnyKey_obj (fs : Dict) (ks : List String) :
    pyAnyKey (.obj fs) ks = .ok (ks.any (fun k => (aget fs k).isSome)) := by
  induction ks with
  | nil => rfl
  | cons k t ih =>
    by_cases hk : (aget fs k).isSome <;>
      simp [pyAnyKey, pyIn, hk, ih, Bind.bind, Except.bind, pure, Except.pure]

theorem checkActionsSection_obj (fs : Dict)
    (h : match aget fs "actions" with
         | some (.arr xs) => xs.all safeAction
         | _ => true) :
    checkActionsSection (.obj fs) = .ok (actionsSectionOk fs) := by
  cases hac : aget fs "actions" with
  | none =>
    simp [checkActionsSection, actionsSectionOk, pyIn, hac,
          Bind.bind, Except.bind, pure, Except.pure]
  | some v =>
    cases v with
    | arr xs =>
      rw [hac] at h
      have hall : ∀ a ∈ xs, checkAction a = .ok (checkActionOk a) := by
        intro a ha
        exact checkAction_safe a (by
          have := List.all_eq_true.mp h a ha
          exact this)
      simp [checkActionsSection, actionsSectionOk, pyIn, pyIndex, hac,
            checkEntriesList_ok checkAction checkActionOk xs hall,
            Bind.bind, Except.bind, pure, Except.pure]
    | null =>
      simp [checkActionsSection, actionsSectionOk, pyIn, pyIndex, hac,
            Bind.bind, Except.bind, pure, Except.pure]
    | bool b =>
      simp [checkActionsSection, actionsSectionOk, pyIn, pyIndex, hac,
            Bind.bind, Except.bind, pure, Except.pure]
    | num n =>
      simp [checkActionsSection, actionsSectionOk, pyIn, pyIndex, hac,
            Bind.bind, Except.bind, pure, Except.pure]
    | str st =>
      simp [checkActionsSection, actionsSectionOk, pyIn, pyIndex, hac,
            Bind.bind, Except.bind, pure, Except.pure]
    | obj g =>
      simp [checkActionsSection, actionsSectionOk, pyIn, pyIndex, hac,
            Bind.bind, Except.bind, pure, Except.pure]

theorem checkMessagesSection_obj (fs : Dict)
    (h : match aget fs "messages" with
         | some (.arr xs) => xs.all isObjVal
         | _ => true) :
    checkMessagesSection (.obj fs) = .ok (messagesSectionOk fs) := by
  cases hms : aget fs "messages" with
  | none =>
    simp [checkMessagesSection, messagesSectionOk, pyIn, hms,
          Bind.bind, Except.bind, pure, Except.pure]
  | some v =>
    cases v with
    | arr xs =>
      rw [hms] at h
      have hall : ∀ m ∈ xs, checkMessage m = .ok (checkMessageOk m) := by
        intro m hm
        exact checkMessage_safe m (List.all_eq_true.mp h m hm)
      simp [checkMessagesSection, messagesSectionOk, pyIn, pyIndex, hms,
            checkEntriesList_ok checkMessage checkMessageOk xs hall,
            Bind.bind, Except.bind, pure, Except.pure]
    | null =>
      simp [checkMessagesSection, messagesSectionOk, pyIn, pyIndex, hms,
            Bind.bind, Except.bind, pure, Except.pure]
    | bool b =>
      simp [checkMessagesSection, messagesSectionOk, pyIn, pyIndex, hms,
            Bind.bind, Except.bind, pure, Except.pure]
    | num n =>
      simp [checkMessagesSection, messagesSectionOk, pyIn, pyIndex, hms,
            Bind.bind, Except.bind, pure, Except.pure]
    | str st =>
      simp [checkMessagesSection, messagesSectionOk, pyIn, pyIndex, hms,
            Bind.bind, Except.bind, pure, Except.pure]
    | obj g =>
      simp [checkMessagesSection, messagesSectionOk, pyIn, pyIndex, hms,
            Bind.bind, Except.bind, pure, Except.pure]

theorem checkAgentUpdateSection_obj (fs : Dict) :
    checkAgentUpdateSection (.obj fs) = .ok (agentUpdateSectionOk fs) := by
  cases hau : aget fs "agent_update" with
  | none =>
    simp [checkAgentUpdateSection, agentUpdateSectionOk, pyIn, hau,
          Bind.bind, Except.bind, pure, Except.pure]
  | some v =>
    cases v <;>
      simp [checkAgentUpdateSection, agentUpdateSectionOk, pyIn, pyIndex, hau,
            Bind.bind, Except.bind, pure, Except.pure]

theorem checkWorldVal_safe (w : Option Val)
    (h : match w with
         | some wv => !wv.truthy || hashableVal wv
         | none => true) :
    checkWorldVal w = .ok (worldBadOk w) := by
  cases w with
  | none => rfl
  | some wv =>
    cases wv with
    | str s =>
      by_cases ht : (Val.str s).truthy <;>
        simp [checkWorldVal, worldBadOk, pySetMem, ht,
              Bind.bind, Except.bind, pure, Except.pure]
    | num n =>
      by_cases ht : (Val.num n).truthy <;>
        simp [checkWorldVal, worldBadOk, pySetMem, ht,
              Bind.bind, Except.bind, pure, Except.pure]
    | bool b =>
      by_cases ht : (Val.bool b).truthy <;>
        simp [checkWorldVal, worldBadOk, pySetMem, ht,
              Bind.bind, Except.bind, pure, Except.pure]
    | null =>
      simp [checkWorldVal, worldBadOk, Val.truthy, pure, Except.pure]
    | arr xs =>
      have h' : (!(Val.arr xs).truthy || hashableVal (Val.arr xs)) = true := h
      rw [Bool.or_eq_true] at h'
      have ht : (Val.arr xs).truthy = false := by
        rcases h' with h2 | h2
        · rwa [Bool.not_eq_true'] at h2
        · simp [hashableVal] at h2
      simp [checkWorldVal, worldBadOk, ht, pure, Except.pure]
    | obj g =>
      have h' : (!(Val.obj g).truthy || hashableVal (Val.obj g)) = true := h
      rw [Bool.or_eq_true] at h'
      have ht : (Val.obj g).truthy = false := by
        rcases h' with h2 | h2
        · rwa [Bool.not_eq_true'] at h2
        · simp [hashableVal] at h2
      simp [checkWorldVal, worldBadOk, ht, pure, Except.pure]

theorem pyIter_safe (v : Val)
    (h : match v with
         | .num _ => False
         | .bool _ => False
         | .null => False
         | _ => True) :
    pyIter v = .ok (pyIterOk v) := by
  cases v with
  | arr xs => rfl
  | str s => rfl
  | obj fs => rfl
  | num n => simp at h
  | bool b => simp at h
  | null => simp at h

theorem pyIterOk_entry_shapes (v : Val)
    (h : match v with
         | .arr es => es.all isObjVal = true
         | .obj _ => True
         | .str _ => True
         | _ => False) :
    ∀ x ∈ pyIterOk v, isObjVal x = true ∨ ∃ s, x = .str s := by
  intro x hx
  cases v with
  | arr es => exact Or.inl (List.all_eq_true.mp h x hx)
  | str s =>
    simp only [pyIterOk, List.mem_map] at hx
    obtain ⟨c, _, rfl⟩ := hx
    exact Or.inr ⟨_, rfl⟩
  | obj fs =>
    simp only [pyIterOk, List.mem_map] at hx
    obtain ⟨p, _, rfl⟩ := hx
    exact Or.inr ⟨_, rfl⟩
  | num n => simp at h
  | bool b => simp at h
  | null => simp at h

theorem checkObjectsSection_obj (fs : Dict)
    (h : match aget fs "objects" with
         | some (.obj ofs) =>
           ((match aget ofs "world" with
             | some w => !w.truthy || hashableVal w
             | none => true) &&
            (match (aget ofs "entries").getD (.arr []) with
             | .arr es => es.all isObjVal
             | .obj _ => true
             | .str _ => true
             | _ => false)) = true
         | _ => True) :
    checkObjectsSection (.obj fs) = .ok (objectsSectionOk fs) := by
  cases ho : aget fs "objects" with
  | none =>
    simp [checkObjectsSection, objectsSectionOk, pyIn, ho,
          Bind.bind, Except.bind, pure, Except.pure]
  | some v =>
    cases v with
    | obj ofs =>
      rw [ho] at h
      have h' : ((match aget ofs "world" with
             | some w => !w.truthy || hashableVal w
             | none => true) &&
            (match (aget ofs "entries").getD (.arr []) with
             | .arr es => es.all isObjVal
             | .obj _ => true
             | .str _ => true
             | _ => false)) = true := h
      rw [Bool.and_eq_true] at h'
      obtain ⟨hworld, hentries⟩ := h'
      have hwv : checkWorldVal (aget ofs "world") = .ok (worldBadOk (aget ofs "world")) := by
        apply checkWorldVal_safe
        cases hw : aget ofs "world" with
        | none => trivial
        | some wv => rw [hw] at hworld; exact hworld
      have hshape : match (aget ofs "entries").getD (.arr []) with
          | .arr es => es.all isObjVal = true
          | .obj _ => True
          | .str _ => True
          | _ => False := by
        cases hev : (aget ofs "entries").getD (.arr []) with
        | arr es => rw [hev] at hentries; exact hentries
        | obj g => trivial
        | str s => trivial
        | num n => rw [hev] at hentries; simp at hentries
        | bool b => rw [hev] at hentries; simp at hentries
        | null => rw [hev] at hentries; simp at hentries
      have hitershape : match (aget ofs "entries").getD (.arr []) with
          | .num _ => False
          | .bool _ => False
          | .null => False
          | _ => True := by
        cases hev : (aget ofs "entries").getD (.arr []) with
        | arr es => trivial
        | obj g => trivial
        | str s => trivial
        | num n => rw [hev] at hshape; simp at hshape
        | bool b => rw [hev] at hshape; simp at hshape
        | null => rw [hev] at hshape; simp at hshape
      have hiter : pyIter ((aget ofs "entries").getD (.arr []))
          = .ok (pyIterOk ((aget ofs "entries").getD (.arr []))) :=
        pyIter_safe _ hitershape
      have hitems : ∀ x ∈ pyIterOk ((aget ofs "entries").getD (.arr [])),
          checkObjectEntry x = .ok (checkObjectEntryOk x) := by
        intro x hx
        exact checkObjectEntry_safe x (pyIterOk_entry_shapes _ hshape x hx)
      simp [checkObjectsSection, objectsSectionOk, pyIn, pyIndex, ho, hwv, hiter,
            checkEntriesList_ok checkObjectEntry checkObjectEntryOk _ hitems,
            Bind.bind, Except.bind, pure, Except.pure]
    | null =>
      simp [checkObjectsSection, objectsSectionOk, pyIn, pyIndex, ho,
            Bind.bind, Except.bind, pure, Except.pure]
    | bool b =>
      simp [checkObjectsSection, objectsSectionOk, pyIn, pyIndex, ho,
            Bind.bind, Except.bind, pure, Except.pure]
    | num n =>
      simp [checkObjectsSection, objectsSectionOk, pyIn, pyIndex, ho,
            Bind.bind, Except.bind, pure, Except.pure]
    | str st =>
      simp [checkObjectsSection, objectsSectionOk, pyIn, pyIndex, ho,
            Bind.bind, Except.bind, pure, Except.pure]
    | arr xs =>
      simp [checkObjectsSection, objectsSectionOk, pyIn, pyIndex, ho,
            Bind.bind, Except.bind, pure, Except.pure]

/-- On every object delta of safe shape, `validate_delta` returns normally
with the concatenation of all section violations. -/
theorem validate_delta_safe (iso : String → Bool) (fs : Dict)
    (hsafe : safeDeltaObj fs = true) :
    validate_delta iso (some (.obj fs)) = .ok (validate_deltaOk iso fs) := by
  have hs : ((match aget fs "actions" with
      | some (.arr xs) => xs.all safeAction
      | _ => true) &&
     (match aget fs "messages" with
      | some (.arr xs) => xs.all isObjVal
      | _ => true) &&
     (match aget fs "objects" with
      | some (.obj ofs) =>
        (match aget ofs "world" with
         | some w => !w.truthy || hashableVal w
         | none => true) &&
        (match (aget ofs "entries").getD (.arr []) with
         | .arr es => es.all isObjVal
         | .obj _ => true
         | .str _ => true
         | _ => false)
      | _ => true)) = true := hsafe
  rw [Bool.and_eq_true, Bool.and_eq_true] at hs
  obtain ⟨⟨hact, hmsg⟩, hobj⟩ := hs
  have hA : checkActionsSection (.obj fs) = .ok (actionsSectionOk fs) := by
    apply checkActionsSection_obj
    cases hac : aget fs "actions" with
    | none => trivial
    | some v =>
      cases v with
      | arr xs =>
        show xs.all safeAction = true
        rw [hac] at hact
        exact hact
      | null => trivial
      | bool b => trivial
      | num n => trivial
      | str st => trivial
      | obj g => trivial
  have hM : checkMessagesSection (.obj fs) = .ok (messagesSectionOk fs) := by
    apply checkMessagesSection_obj
    cases hms : aget fs "messages" with
    | none => trivial
    | some v =>
      cases v with
      | arr xs =>
        show xs.all isObjVal = true
        rw [hms] at hmsg
        exact hmsg
      | null => trivial
      | bool b => trivial
      | num n => trivial
      | str st => trivial
      | obj g => trivial
  have hO : checkObjectsSection (.obj fs) = .ok (objectsSectionOk fs) := by
    apply checkObjectsSection_obj
    cases ho : aget fs "objects" with
    | none => trivial
    | some v =>
      cases v with
      | obj ofs =>
        show ((match aget ofs "world" with
               | some w => !w.truthy || hashableVal w
               | none => true) &&
              (match (aget ofs "entries").getD (.arr []) with
               | .arr es => es.all isObjVal
               | .obj _ => true
               | .str _ => true
               | _ => false)) = true
        rw [ho] at hobj
        exact hobj
      | null => trivial
      | bool b => trivial
      | num n => trivial
      | str st => trivial
      | arr xs => trivial
  simp [validate_delta, validate_deltaOk, checkRequired_obj, pyAnyKey_obj,
        hA, hM, hO, checkAgentUpdateSection_obj,
        Bind.bind, Except.bind, pure, Except.pure, List.append_assoc]

theorem mem_concatMapViol {f : Val → List DViol} {xs : List Val} {v : DViol} :
    v ∈ concatMapViol f xs ↔ ∃ x ∈ xs, v ∈ f x := by
  induction xs with
  | nil => simp [concatMapViol]
  | cons x t ih => simp [concatMapViol, List.mem_append, ih]

theorem checkActionOk_shape (a : Val) :
    ∀ v ∈ checkActionOk a, v = DViol.actionMissingId ∨ v = DViol.actionMissingType ∨
      ∃ t, v = DViol.invalidActionType t := by
  intro v hv
  unfold checkActionOk at hv
  cases a with
  | obj fs =>
    rcases List.mem_append.mp hv with h | h
    · by_cases hid : (aget fs "id").isSome
      · simp [hid] at h
      · simp [hid] at h
        exact Or.inl h
    · cases hty : aget fs "type" with
      | none =>
        rw [hty] at h
        simp at h
        exact Or.inr (Or.inl h)
      | some t =>
        rw [hty] at h
        cases t with
        | str s =>
          by_cases hm : VALID_ACTION_TYPES.any (fun x => decide (x = s))
          · simp [hm] at h
          · simp [hm] at h
            exact Or.inr (Or.inr ⟨_, h⟩)
        | null => simp at h; exact Or.inr (Or.inr ⟨_, h⟩)
        | bool b => simp at h; exact Or.inr (Or.inr ⟨_, h⟩)
        | num n => simp at h; exact Or.inr (Or.inr ⟨_, h⟩)
        | arr l => simp at h; exact Or.inr (Or.inr ⟨_, h⟩)
        | obj g => simp at h; exact Or.inr (Or.inr ⟨_, h⟩)
  | null => simp at hv
  | bool b => simp at hv
  | num n => simp at hv
  | str s => simp at hv
  | arr l => simp at hv

theorem checkMessageOk_shape (m : Val) :
    ∀ v ∈ checkMessageOk m, v = DViol.messageMissingId ∨ v = DViol.messageMissingContent := by
  intro v hv
  unfold checkMessageOk at hv
  cases m with
  | obj fs =>
    rcases List.mem_append.mp hv with h | h
    · by_cases hid : (aget fs "id").isSome
      · simp [hid] at h
      · simp [hid] at h
        exact Or.inl h
    · by_cases hc : (aget fs "content").isSome
      · simp [hc] at h
      · simp [hc] at h
        exact Or.inr h
  | null => simp at hv
  | bool b => simp at hv
  | num n => simp at hv
  | str s => simp at hv
  | arr l => simp at hv

theorem checkObjectEntryOk_shape (e : Val) :
    ∀ v ∈ checkObjectEntryOk e, v = DViol.objectEntryMissingId := by
  intro v hv
  unfold checkObjectEntryOk at hv
  cases e with
  | obj fs =>
    by_cases hid : (aget fs "id").isSome
    · simp [hid] at hv
    · simp [hid] at hv
      exact hv
  | str s =>
    by_cases hid : hasSubstr "id" s
    · simp [hid] at hv
    · simp [hid] at hv
      exact hv
  | null => simp at hv
  | bool b => simp at hv
  | num n => simp at hv
  | arr l => simp at hv

theorem requiredOk_shape (iso : String → Bool) (fs : Dict) :
    ∀ v ∈ requiredOk iso fs, v = DViol.missingAgentId ∨ v = DViol.missingTimestamp ∨
      v = DViol.invalidTimestamp := by
  intro v hv
  unfold requiredOk at hv
  rcases List.mem_append.mp hv with h | h
  · by_cases ha : (aget fs "agent_id").isSome
    · simp [ha] at h
    · simp [ha] at h
      exact Or.inl h
  · cases hts : aget fs "timestamp" with
    | none =>
      rw [hts] at h
      simp at h
      exact Or.inr (Or.inl h)
    | some tv =>
      rw [hts] at h
      unfold checkTimestampVal at h
      cases tv with
      | str s =>
        by_cases hi : iso s
        · simp [hi] at h
        · simp [hi] at h
          exact Or.inr (Or.inr h)
      | null => simp at h; exact Or.inr (Or.inr h)
      | bool b => simp at h; exact Or.inr (Or.inr h)
      | num n => simp at h; exact Or.inr (Or.inr h)
      | arr l => simp at h; exact Or.inr (Or.inr h)
      | obj g => simp at h; exact Or.inr (Or.inr h)

theorem actionsSectionOk_shape (fs : Dict) :
    ∀ v ∈ actionsSectionOk fs, v = DViol.actionsNotArray ∨ v = DViol.actionMissingId ∨
      v = DViol.actionMissingType ∨ ∃ t, v = DViol.invalidActionType t := by
  intro v hv
  unfold actionsSectionOk at hv
  cases hac : aget fs "actions" with
  | none => rw [hac] at hv; simp at hv
  | some w =>
    rw [hac] at hv
    cases w with
    | arr xs =>
      obtain ⟨x, _, hx⟩ := mem_concatMapViol.mp hv
      rcases checkActionOk_shape x v hx with h | h | h
      · exact Or.inr (Or.inl h)
      · exact Or.inr (Or.inr (Or.inl h))
      · exact Or.inr (Or.inr (Or.inr h))
    | null => simp at hv; exact Or.inl hv
    | bool b => simp at hv; exact Or.inl hv
    | num n => simp at hv; exact Or.inl hv
    | str s => simp at hv; exact Or.inl hv
    | obj g => simp at hv; exact Or.inl hv

theorem messagesSectionOk_shape (fs : Dict) :
    ∀ v ∈ messagesSectionOk fs, v = DViol.messagesNotArray ∨ v = DViol.messageMissingId ∨
      v = DViol.messageMissingContent := by
  intro v hv
  unfold messagesSectionOk at hv
  cases hms : aget fs "messages" with
  | none => rw [hms] at hv; simp at hv
  | some w =>
    rw [hms] at hv
    cases w with
    | arr xs =>
      obtain ⟨x, _, hx⟩ := mem_concatMapViol.mp hv
      rcases checkMessageOk_shape x v hx with h | h
      · exact Or.inr (Or.inl h)
      · exact Or.inr (Or.inr h)
    | null => simp at hv; exact Or.inl hv
    | bool b => simp at hv; exact Or.inl hv
    | num n => simp at hv; exact Or.inl hv
    | str s => simp at hv; exact Or.inl hv
    | obj g => simp at hv; exact Or.inl hv

theorem agentUpdateSectionOk_shape (fs : Dict) :
    ∀ v ∈ agentUpdateSectionOk fs, v = DViol.agentUpdateNotObject ∨
      v = DViol.agentUpdateMissingId := by
  intro v hv
  unfold agentUpdateSectionOk at hv
  cases hau : aget fs "agent_update" with
  | none => rw [hau] at hv; simp at hv
  | some w =>
    rw [hau] at hv
    cases w with
    | obj g =>
      by_cases hid : (aget g "id").isSome
      · simp [hid] at hv
      · simp [hid] at hv
        exact Or.inr hv
    | null => simp at hv; exact Or.inl hv
    | bool b => simp at hv; exact Or.inl hv
    | num n => simp at hv; exact Or.inl hv
    | str s => simp at hv; exact Or.inl hv
    | arr l => simp at hv; exact Or.inl hv

theorem objectsSectionOk_shape (fs : Dict) :
    ∀ v ∈ objectsSectionOk fs, v = DViol.objectsNotObject ∨ v = DViol.invalidObjectsWorld ∨
      v = DViol.entriesNotArray ∨ v = DViol.objectEntryMissingId := by
  intro v hv
  unfold objectsSectionOk at hv
  cases ho : aget fs "objects" with
  | none => rw [ho] at hv; simp at hv
  | some w =>
    rw [ho] at hv
    cases w with
    | obj ofs =>
      rcases List.mem_append.mp hv with h | h
      · rcases List.mem_append.mp h with h2 | h2
        · by_cases hw : worldBadOk (aget ofs "world")
          · simp [hw] at h2
            exact Or.inr (Or.inl h2)
          · simp [hw] at h2
        · cases hev : (aget ofs "entries").getD (.arr []) with
          | arr es => rw [hev] at h2; simp at h2
          | null => rw [hev] at h2; simp at h2; exact Or.inr (Or.inr (Or.inl h2))
          | bool b => rw [hev] at h2; simp at h2; exact Or.inr (Or.inr (Or.inl h2))
          | num n => rw [hev] at h2; simp at h2; exact Or.inr (Or.inr (Or.inl h2))
          | str s => rw [hev] at h2; simp at h2; exact Or.inr (Or.inr (Or.inl h2))
          | obj g => rw [hev] at h2; simp at h2; exact Or.inr (Or.inr (Or.inl h2))
      · obtain ⟨x, _, hx⟩ := mem_concatMapViol.mp h
        exact Or.inr (Or.inr (Or.inr (checkObjectEntryOk_shape x v hx)))
    | null => simp at hv; exact Or.inl hv
    | bool b => simp at hv; exact Or.inl hv
    | num n => simp at hv; exact Or.inl hv
    | str s => simp at hv; exact Or.inl hv
    | arr l => simp at hv; exact Or.inl hv

theorem countP_messages (xs : List Val) (hobj : ∀ m ∈ xs, isObjVal m = true) :
    List.countP (fun v => decide (v = DViol.messageMissingId)) (concatMapViol checkMessageOk xs)
      = xs.countP (fun m => match m with
          | .obj g => (aget g "id").isNone
          | _ => false) := by
  induction xs with
  | nil => rfl
  | cons m t ih =>
    have hm := hobj m (by simp)
    have ht : ∀ w ∈ t, isObjVal w = true := fun w hw => hobj w (by simp [hw])
    cases m with
    | obj g =>
      have h1 : List.countP (fun v => decide (v = DViol.messageMissingId))
          (checkMessageOk (.obj g)) = if (aget g "id").isNone then 1 else 0 := by
        unfold checkMessageOk
        cases hid : aget g "id" with
        | none =>
          cases hc : aget g "content" with
          | none => simp [hid, hc, List.countP_append, List.countP_cons, List.countP_nil]
          | some c => simp [hid, hc, List.countP_append, List.countP_cons, List.countP_nil]
        | some i =>
          cases hc : aget g "content" with
          | none => simp [hid, hc, List.countP_append, List.countP_cons, List.countP_nil]
          | some c => simp [hid, hc, List.countP_append, List.countP_cons, List.countP_nil]
      rw [concatMapViol, List.countP_append, h1, ih ht, List.countP_cons]
      simp only
      omega
    | null => simp [isObjVal] at hm
    | bool b => simp [isObjVal] at hm
    | num n => simp [isObjVal] at hm
    | str s => simp [isObjVal] at hm
    | arr l => simp [isObjVal] at hm

/-- C6, counterexample.  The claim states the validator is total: it returns
normally on every input, including non-object payloads.  On the code, a
top-level JSON number makes `"agent_id" not in delta` raise an uncaught
`TypeError`, and a non-object entry inside `actions` makes `"id" not in
action` raise likewise — the validator does not return. -/
theorem validate_delta_raises_counterexample :
    validate_delta (fun _ => true) (some (.num 5)) = .error .typeError ∧
    validate_delta (fun _ => true)
        (some (.obj [("agent_id", .str "a1"),
                     ("timestamp", .str "2026-02-11T19:20:44Z"),
                     ("actions", .arr [.num 7])])) = .error .typeError :=
  ⟨rfl, rfl⟩

/-- C6 (amended): on every top-level JSON object whose `actions` entries are
objects with hashable `type` values, whose `messages` entries are objects,
and whose `objects` section has a hashable world and iterable entries of
object shape, the validator returns normally; its result reports the
`agent_id` and `timestamp` violations exactly when those keys are absent,
and reports one missing-id violation per offending message — all violations
are collected, none masks another.  Other input shapes (a non-object
top-level value, a non-object entry) can raise `TypeError` instead. -/
theorem validate_delta_total_and_exhaustive (iso : String → Bool) (fs : Dict)
    (hsafe : safeDeltaObj fs = true) :
    ∃ vs, validate_delta iso (some (.obj fs)) = .ok vs ∧
      (DViol.missingAgentId ∈ vs ↔ aget fs "agent_id" = none) ∧
      (DViol.missingTimestamp ∈ vs ↔ aget fs "timestamp" = none) ∧
      (∀ xs, aget fs "messages" = some (.arr xs) →
        vs.countP (fun v => decide (v = DViol.messageMissingId))
          = xs.countP (fun m => match m with
              | .obj g => (aget g "id").isNone
              | _ => false)) := by
  refine ⟨validate_deltaOk iso fs, validate_delta_safe iso fs hsafe, ?_, ?_, ?_⟩
  · constructor
    · intro hv
      unfold validate_deltaOk at hv
      rcases List.mem_append.mp hv with h | h
      rcases List.mem_append.mp h with h | h
      rcases List.mem_append.mp h with h | h
      rcases List.mem_append.mp h with h | h
      rcases List.mem_append.mp h with h | h
      · unfold requiredOk at h
        rcases List.mem_append.mp h with h2 | h2
        · by_cases ha : (aget fs "agent_id").isSome
          · simp [ha] at h2
          · exact Option.not_isSome_iff_eq_none.mp ha
        · exfalso
          cases hts : aget fs "timestamp" with
          | none => rw [hts] at h2; simp at h2
          | some tv =>
            rw [hts] at h2
            unfold checkTimestampVal at h2
            cases tv with
            | str s =>
              by_cases hi : iso s
              · simp [hi] at h2
              · simp [hi] at h2
            | null => simp at h2
            | bool b => simp at h2
            | num n => simp at h2
            | arr l => simp at h2
            | obj g => simp at h2
      · exfalso
        by_cases hk : ["actions", "messages", "agent_update", "objects", "activities"].any
            (fun k => (aget fs k).isSome)
        · simp [hk] at h
        · simp [hk] at h
      · exfalso
        rcases actionsSectionOk_shape fs _ h with h2 | h2 | h2 | ⟨t, h2⟩ <;> exact nomatch h2
      · exfalso
        rcases messagesSectionOk_shape fs _ h with h2 | h2 | h2 <;> exact nomatch h2
      · exfalso
        rcases agentUpdateSectionOk_shape fs _ h with h2 | h2 <;> exact nomatch h2
      · exfalso
        rcases objectsSectionOk_shape fs _ h with h2 | h2 | h2 | h2 <;> exact nomatch h2
    · intro hnone
      simp [validate_deltaOk, requiredOk, hnone]
  · constructor
    · intro hv
      unfold validate_deltaOk at hv
      rcases List.mem_append.mp hv with h | h
      rcases List.mem_append.mp h with h | h
      rcases List.mem_append.mp h with h | h
      rcases List.mem_append.mp h with h | h
      rcases List.mem_append.mp h with h | h
      · unfold requiredOk at h
        rcases List.mem_append.mp h with h2 | h2
        · exfalso
          by_cases ha : (aget fs "agent_id").isSome
          · simp [ha] at h2
          · simp [ha] at h2
        · cases hts : aget fs "timestamp" with
          | none => rfl
          | some tv =>
            exfalso
            rw [hts] at h2
            unfold checkTimestampVal at h2
            cases tv with
            | str s =>
              by_cases hi : iso s
              · simp [hi] at h2
              · simp [hi] at h2
            | null => simp at h2
            | bool b => simp at h2
            | num n => simp at h2
            | arr l => simp at h2
            | obj g => simp at h2
      · exfalso
        by_cases hk : ["actions", "messages", "agent_update", "objects", "activities"].any
            (fun k => (aget fs k).isSome)
        · simp [hk] at h
        · simp [hk] at h
      · exfalso
        rcases actionsSectionOk_shape fs _ h with h2 | h2 | h2 | ⟨t, h2⟩ <;> exact nomatch h2
      · exfalso
        rcases messagesSectionOk_shape fs _ h with h2 | h2 | h2 <;> exact nomatch h2
      · exfalso
        rcases agentUpdateSectionOk_shape fs _ h with h2 | h2 <;> exact nomatch h2
      · exfalso
        rcases objectsSectionOk_shape fs _ h with h2 | h2 | h2 | h2 <;> exact nomatch h2
    · intro hnone
      simp [validate_deltaOk, requiredOk, hnone]
  · intro xs hxs
    have hs : ((match aget fs "actions" with
        | some (.arr ys) => ys.all safeAction
        | _ => true) &&
       (match aget fs "messages" with
        | some (.arr ys) => ys.all isObjVal
        | _ => true) &&
       (match aget fs "objects" with
        | some (.obj ofs) =>
          (match aget ofs "world" with
           | some w => !w.truthy || hashableVal w
           | none => true) &&
          (match (aget ofs "entries").getD (.arr []) with
           | .arr es => es.all isObjVal
           | .obj _ => true
           | .str _ => true
           | _ => false)
        | _ => true)) = true := hsafe
    rw [Bool.and_eq_true, Bool.and_eq_true] at hs
    have hmsg := hs.1.2
    rw [hxs] at hmsg
    have hobjs : ∀ m ∈ xs, isObjVal m = true := List.all_eq_true.mp hmsg
    set p : DViol → Bool := fun v => decide (v = DViol.messageMissingId) with hp
    have z1 : List.countP p (requiredOk iso fs) = 0 := by
      rw [List.countP_eq_zero]
      intro v hv
      rcases requiredOk_shape iso fs v hv with h | h | h <;> subst h <;> simp [hp]
    have z2 : List.countP p (if ["actions", "messages", "agent_update", "objects",
        "activities"].any (fun k => (aget fs k).isSome) then []
          else [DViol.noDeltaContent]) = 0 := by
      by_cases hk : ["actions", "messages", "agent_update", "objects", "activities"].any
          (fun k => (aget fs k).isSome) <;> simp [hk, hp, List.countP_cons]
    have z3 : List.countP p (actionsSectionOk fs) = 0 := by
      rw [List.countP_eq_zero]
      intro v hv
      rcases actionsSectionOk_shape fs v hv with h | h | h | ⟨t, h⟩ <;> subst h <;> simp [hp]
    have z4 : List.countP p (agentUpdateSectionOk fs) = 0 := by
      rw [List.countP_eq_zero]
      intro v hv
      rcases agentUpdateSectionOk_shape fs v hv with h | h <;> subst h <;> simp [hp]
    have z5 : List.countP p (objectsSectionOk fs) = 0 := by
      rw [List.countP_eq_zero]
      intro v hv
      rcases objectsSectionOk_shape fs v hv with h | h | h | h <;> subst h <;> simp [hp]
    have hmain : List.countP p (messagesSectionOk fs)
        = xs.countP (fun m => match m with
            | .obj g => (aget g "id").isNone
            | _ => false) := by
      unfold messagesSectionOk
      rw [hxs]
      exact countP_messages xs hobjs
    unfold validate_deltaOk
    rw [List.countP_append, List.countP_append, List.countP_append,
        List.countP_append, List.countP_append, z1, z2, z3, z4, z5, hmain]
    omega

/-- C6, witness for `validate_delta_total_and_exhaustive` at a delta with a
missing `agent_id`, a good timestamp, and two messages of which one misses
its id. -/
theorem validate_delta_total_and_exhaustive_witness :
    ∃ vs, validate_delta (fun _ => true)
        (some (.obj [("timestamp", .str "2026-02-11T19:20:44Z"),
                     ("messages", .arr [.obj [("id", .str "m1"), ("content", .str "hi")],
                                        .obj [("content", .str "no id")]])])) = .ok vs ∧
      (DViol.missingAgentId ∈ vs ↔
        aget [("timestamp", Val.str "2026-02-11T19:20:44Z"),
              ("messages", Val.arr [.obj [("id", .str "m1"), ("content", .str "hi")],
                                    .obj [("content", .str "no id")]])] "agent_id" = none) ∧
      (DViol.missingTimestamp ∈ vs ↔
        aget [("timestamp", Val.str "2026-02-11T19:20:44Z"),
              ("messages", Val.arr [.obj [("id", .str "m1"), ("content", .str "hi")],
                                    .obj [("content", .str "no id")]])] "timestamp" = none) ∧
      (∀ xs, aget [("timestamp", Val.str "2026-02-11T19:20:44Z"),
              ("messages", Val.arr [.obj [("id", .str "m1"), ("content", .str "hi")],
                                    .obj [("content", .str "no id")]])] "messages"
          = some (.arr xs) →
        vs.countP (fun v => decide (v = DViol.messageMissingId))
          = xs.countP (fun m => match m with
              | .obj g => (aget g "id").isNone
              | _ => false)) :=
  validate_delta_total_and_exhaustive (fun _ => true) _ (by decide)

/-! ### The state validator: `scripts/validate_action.py`

`validate_position` (lines 79–89) and `validate_agents` (lines 92–128)
append message strings to a global error list; the embedding returns the
structured violations, one constructor per `error()` call site carrying the
variable data of its message (the free-text context argument is omitted).
A non-object agent raises `AttributeError` at `agent.get`, an unhashable
agent id raises `TypeError` at the `seen_ids` membership test, a non-object
`_meta` raises at `.get` — these paths are the `Except` errors. -/

/-- The violations of `validate_agents` and `validate_position`. -/
inductive AViol where
  | missingAgentsArray : AViol
  | agentsNotArray : AViol
  | agentMissingId : AViol
  | duplicateAgentId : Val → AViol
  | agentMissingField : Val → String → AViol
  | unknownWorld : Val → AViol
  | xOutOfBounds : Int → String → Int → Int → AViol
  | zOutOfBounds : Int → String → Int → Int → AViol
  | missingMeta : AViol
  | countMismatch : Option Val → Nat → AViol
deriving DecidableEq, Repr

/-- The per-world bounds table (`validate_action.py` lines 20–26), as
`{world: ((x_min, x_max), (z_min, z_max))}`. -/
def WORLD_BOUNDS : List (String × ((Int × Int) × (Int × Int))) :=
  [("hub", ((-15, 15), (-15, 15))),
   ("arena", ((-12, 12), (-12, 12))),
   ("marketplace", ((-15, 15), (-15, 15))),
   ("gallery", ((-12, 12), (-12, 15))),
   ("dungeon", ((-12, 12), (-12, 12)))]

/-- `pos.get("x", 0)`: a missing coordinate defaults to `0`. -/
def coordVal : Option Val → Val
  | some v => v
  | none => .num 0

/-- A value usable in an integer comparison (`bounds[...] <= x`): numbers
compare as themselves, booleans as 0/1, everything else raises
`TypeError`. -/
def pyIntOf : Val → Except PyErr Int
  | .num n => .ok n
  | .bool b => .ok (if b then 1 else 0)
  | _ => .error .typeError

/-- `validate_position` (lines 79–89): look the world up in the bounds
table (an unhashable world raises), report an unknown world, then check
each axis inclusively and report the axis, the coordinate and the allowed
range on failure. -/
def validate_position (pos : Val) (world : Val) : Except PyErr (List AViol) :=
  match world with
  | .arr _ => .error .typeError
  | .obj _ => .error .typeError
  | .str s =>
    match aget WORLD_BOUNDS s with
    | none => .ok [AViol.unknownWorld (.str s)]
    | some ((xlo, xhi), (zlo, zhi)) => do
      let fsp ← (match pos with
        | .obj f => Except.ok f
        | _ => Except.error PyErr.attributeError)
      let xv ← pyIntOf (coordVal (aget fsp "x"))
      let zv ← pyIntOf (coordVal (aget fsp "z"))
      pure ((if decide (xlo ≤ xv ∧ xv ≤ xhi) then [] else [AViol.xOutOfBounds xv s xlo xhi]) ++
            (if decide (zlo ≤ zv ∧ zv ≤ zhi) then [] else [AViol.zOutOfBounds zv s zlo zhi]))
  | w => .ok [AViol.unknownWorld w]

/-- The body of the per-agent loop (lines 102–118): a falsy or missing id
short-circuits, a duplicate id is reported, required fields are checked,
and a truthy position is bounds-checked against the agent's world
(defaulting to `"hub"`).  Returns the collected violations and the updated
`seen_ids`. -/
def checkAgentEntry (seen : List Val) (agent : Val) :
    Except PyErr (List AViol × List Val) := do
  let fsa ← (match agent with
    | .obj f => Except.ok f
    | _ => Except.error PyErr.attributeError)
  match aget fsa "id" with
  | none => pure ([AViol.agentMissingId], seen)
  | some v =>
    if v.truthy then do
      _ ← (match v with
        | .arr _ => Except.error PyErr.typeError
        | .obj _ => Except.error PyErr.typeError
        | _ => Except.ok ())
      let dup := if v ∈ seen then [AViol.duplicateAgentId v] else []
      let fv := (["name", "world", "position", "status"].filter
          (fun fld => !(aget fsa fld).isSome)).map (fun fld => AViol.agentMissingField v fld)
      let world := (aget fsa "world").getD (.str "hub")
      let pos := (aget fsa "position").getD (.obj [])
      let pv ← if pos.truthy then validate_position pos world else pure []
      pure (dup ++ fv ++ pv, v :: seen)
    else pure ([AViol.agentMissingId], seen)

/-- The per-agent loop of `validate_agents`, threading `seen_ids`. -/
def agentsLoop (seen : List Val) : List Val → Except PyErr (List AViol)
  | [] => pure []
  | a :: rest => do
    let r ← checkAgentEntry seen a
    let es ← agentsLoop r.2 rest
    pure (r.1 ++ es)

/-- Python equality of an optional JSON value against an int (`... !=
len(...)` at line 122): numbers compare by value, booleans as 0/1,
everything else is unequal. -/
def pyEqNat (v : Option Val) (n : Nat) : Bool :=
  match v with
  | some (.num m) => decide (m = (n : Int))
  | some (.bool b) => decide ((if b then (1 : Int) else 0) = (n : Int))
  | _ => false

/-- `validate_agents` (lines 92–128): structure checks, the per-agent loop,
then the `_meta` presence and `_meta.agentCount` coherence check — an exact
comparison against `len(data["agents"])`, with no tolerance. -/
def validate_agents (data : Dict) : Except PyErr (List AViol) :=
  match aget data "agents" with
  | none => pure [AViol.missingAgentsArray]
  | some (.arr agents) => do
    let loopErrs ← agentsLoop [] agents
    let metaErrs ← (match aget data "_meta" with
      | none => Except.ok [AViol.missingMeta]
      | some (.obj m) =>
        Except.ok (if pyEqNat (aget m "agentCount") agents.length then []
                   else [AViol.countMismatch (aget m "agentCount") agents.length])
      | some _ => Except.error PyErr.attributeError)
    pure (loopErrs ++ metaErrs)
  | some _ => pure [AViol.agentsNotArray]

/-- `test_meta_agent_count_matches` (`scripts/test_state_integrity.py`,
lines 279–290): `some true` = pass, `some false` = hard failure, `none` =
the test itself errors (a non-numeric count makes `abs(count - len)`
raise).  A missing count passes outright; otherwise drift up to the
hard-coded literal 5 only warns, and the assertion fails beyond it. -/
def test_meta_agent_count_matches (agents : List Val) (meta : Dict) : Option Bool :=
  match aget meta "agentCount" with
  | none => some true
  | some (.num n) => some (decide ((n - (agents.length : Int)).natAbs ≤ 5))
  | some (.bool b) =>
    some (decide (((if b then (1 : Int) else 0) - (agents.length : Int)).natAbs ≤ 5))
  | some _ => none

/-! ### C8 — bounds enforcement names the axis and range -/

/-- C8.  For a position in a zone with registered bounds, `validate_position`
returns normally and reports a violation naming the axis, the offending
coordinate and the allowed [min, max] range exactly when the coordinate on
that axis lies outside the inclusive range; a position inside the range on
both axes yields no violation at all. -/
theorem validate_position_bounds (s : String) (xlo xhi zlo zhi : Int)
    (hw : aget WORLD_BOUNDS s = some ((xlo, xhi), (zlo, zhi))) (pos : Dict) (x z : Int)
    (hx : coordVal (aget pos "x") = .num x) (hz : coordVal (aget pos "z") = .num z) :
    ∃ vs, validate_position (.obj pos) (.str s) = .ok vs ∧
      (AViol.xOutOfBounds x s xlo xhi ∈ vs ↔ ¬(xlo ≤ x ∧ x ≤ xhi)) ∧
      (AViol.zOutOfBounds z s zlo zhi ∈ vs ↔ ¬(zlo ≤ z ∧ z ≤ zhi)) ∧
      ((xlo ≤ x ∧ x ≤ xhi) ∧ (zlo ≤ z ∧ z ≤ zhi) → vs = []) := by
  refine ⟨(if decide (xlo ≤ x ∧ x ≤ xhi) then [] else [AViol.xOutOfBounds x s xlo xhi]) ++
          (if decide (zlo ≤ z ∧ z ≤ zhi) then [] else [AViol.zOutOfBounds z s zlo zhi]),
          ?_, ?_, ?_, ?_⟩
  · unfold validate_position
    simp only [hw]
    simp [hx, hz, pyIntOf, Bind.bind, Except.bind, pure, Except.pure]
  · by_cases h1 : (xlo ≤ x ∧ x ≤ xhi) <;> by_cases h2 : (zlo ≤ z ∧ z ≤ zhi) <;>
      simp [h1, h2]
  · by_cases h1 : (xlo ≤ x ∧ x ≤ xhi) <;> by_cases h2 : (zlo ≤ z ∧ z ≤ zhi) <;>
      simp [h1, h2]
  · rintro ⟨h1, h2⟩
    simp [h1, h2]

/-- C8, witness: in `hub` (x range [-15, 15]), x = 16 — one unit outside —
is reported with the axis and range, and (16, 0) has no z violation; the
violation list is exactly the x report. -/
theorem validate_position_bounds_witness :
    ∃ vs, validate_position (.obj [("x", .num 16), ("z", .num 0)]) (.str "hub") = .ok vs ∧
      (AViol.xOutOfBounds 16 "hub" (-15) 15 ∈ vs ↔ ¬((-15 : Int) ≤ 16 ∧ (16 : Int) ≤ 15)) ∧
      (AViol.zOutOfBounds 0 "hub" (-15) 15 ∈ vs ↔ ¬((-15 : Int) ≤ 0 ∧ (0 : Int) ≤ 15)) ∧
      (((-15 : Int) ≤ 16 ∧ (16 : Int) ≤ 15) ∧ ((-15 : Int) ≤ 0 ∧ (0 : Int) ≤ 15) → vs = []) :=
  validate_position_bounds "hub" (-15) 15 (-15) 15 (by decide)
    [("x", .num 16), ("z", .num 0)] 16 0 (by decide) (by decide)

/-! ### C7 — metadata coherence and its tolerance -/

/-- Discriminator for the `_meta.agentCount` coherence violation. -/
def isCountViol : AViol → Bool
  | .countMismatch _ _ => true
  | _ => false

theorem validate_position_no_count (pos world : Val) (vs : List AViol)
    (h : validate_position pos world = .ok vs) : ∀ v ∈ vs, isCountViol v = false := by
  unfold validate_position at h
  cases world with
  | str s =>
    cases hw : aget WORLD_BOUNDS s with
    | none =>
      simp only [hw] at h
      simp at h
      subst h
      intro v hv
      simp at hv
      subst hv
      rfl
    | some b =>
      obtain ⟨⟨xlo, xhi⟩, zb⟩ := b
      obtain ⟨zlo, zhi⟩ := zb
      simp only [hw] at h
      cases pos with
      | obj f =>
        cases hxv : pyIntOf (coordVal (aget f "x")) with
        | error e => simp [hxv, Bind.bind, Except.bind] at h
        | ok xv =>
          cases hzv : pyIntOf (coordVal (aget f "z")) with
          | error e => simp [hxv, hzv, Bind.bind, Except.bind] at h
          | ok zv =>
            simp [hxv, hzv, Bind.bind, Except.bind, pure, Except.pure] at h
            subst h
            intro v hv
            rcases List.mem_append.mp hv with h2 | h2
            · by_cases hc : (xlo ≤ xv ∧ xv ≤ xhi)
              · simp [hc] at h2
              · simp [hc] at h2
                subst h2
                rfl
            · by_cases hc : (zlo ≤ zv ∧ zv ≤ zhi)
              · simp [hc] at h2
              · simp [hc] at h2
                subst h2
                rfl
      | null => simp [Bind.bind, Except.bind] at h
      | bool b => simp [Bind.bind, Except.bind] at h
      | num n => simp [Bind.bind, Except.bind] at h
      | str t => simp [Bind.bind, Except.bind] at h
      | arr l => simp [Bind.bind, Except.bind] at h
  | null =>
    simp at h
    subst h
    intro v hv
    simp at hv
    subst hv
    rfl
  | bool b =>
    simp at h
    subst h
    intro v hv
    simp at hv
    subst hv
    rfl
  | num n =>
    simp at h
    subst h
    intro v hv
    simp at hv
    subst hv
    rfl
  | arr l => simp at h
  | obj g => simp at h

theorem entry_viols_no_count (seen : List Val) (fsa : Dict) (idv : Val)
    (pvs : List AViol) (hpvs : ∀ v ∈ pvs, isCountViol v = false) :
    ∀ v ∈ (if idv ∈ seen then [AViol.duplicateAgentId idv] else []) ++
        ((["name", "world", "position", "status"].filter
            (fun fld => (aget fsa fld).isNone)).map
          (fun fld => AViol.agentMissingField idv fld) ++ pvs),
      isCountViol v = false := by
  intro v hv
  rcases List.mem_append.mp hv with h2 | h23
  · by_cases hdup : idv ∈ seen
    · simp [hdup] at h2
      subst h2
      rfl
    · simp [hdup] at h2
  · rcases List.mem_append.mp h23 with h2 | h2
    · simp only [List.mem_map] at h2
      obtain ⟨fld, _, hfe⟩ := h2
      subst hfe
      rfl
    · exact hpvs v h2

theorem checkAgentEntry_no_count (seen : List Val) (agent : Val)
    (res : List AViol × List Val) (h : checkAgentEntry seen agent = .ok res) :
    ∀ v ∈ res.1, isCountViol v = false := by
  unfold checkAgentEntry at h
  cases agent with
  | obj fsa =>
    cases hid : aget fsa "id" with
    | none =>
      simp [hid, Bind.bind, Except.bind, pure, Except.pure] at h
      subst h
      intro v hv
      simp at hv
      subst hv
      rfl
    | some idv =>
      by_cases htr : idv.truthy
      · cases idv with
        | arr l => simp [hid, htr, Bind.bind, Except.bind] at h
        | obj g => simp [hid, htr, Bind.bind, Except.bind] at h
        | null => simp [Val.truthy] at htr
        | bool b =>
          by_cases hpt : ((aget fsa "position").getD (Val.obj [])).truthy
          · cases hpv : validate_position ((aget fsa "position").getD (Val.obj []))
                ((aget fsa "world").getD (Val.str "hub")) with
            | error e => simp [hid, htr, hpt, hpv, Bind.bind, Except.bind] at h
            | ok pvs =>
              simp [hid, htr, hpt, hpv, Bind.bind, Except.bind, pure, Except.pure] at h
              subst h
              exact entry_viols_no_count seen fsa (Val.bool b) pvs
                (validate_position_no_count _ _ _ hpv)
          · simp [hid, htr, hpt, Bind.bind, Except.bind, pure, Except.pure] at h
            subst h
            have := entry_viols_no_count seen fsa (Val.bool b) []
              (fun v hv => absurd hv (List.not_mem_nil v))
            intro v hv
            apply this
            simpa using hv
        | num n =>
          by_cases hpt : ((aget fsa "position").getD (Val.obj [])).truthy
          · cases hpv : validate_position ((aget fsa "position").getD (Val.obj []))
                ((aget fsa "world").getD (Val.str "hub")) with
            | error e => simp [hid, htr, hpt, hpv, Bind.bind, Except.bind] at h
            | ok pvs =>
              simp [hid, htr, hpt, hpv, Bind.bind, Except.bind, pure, Except.pure] at h
              subst h
              exact entry_viols_no_count seen fsa (Val.num n) pvs
                (validate_position_no_count _ _ _ hpv)
          · simp [hid, htr, hpt, Bind.bind, Except.bind, pure, Except.pure] at h
            subst h
            have := entry_viols_no_count seen fsa (Val.num n) []
              (fun v hv => absurd hv (List.not_mem_nil v))
            intro v hv
            apply this
            simpa using hv
        | str t =>
          by_cases hpt : ((aget fsa "position").getD (Val.obj [])).truthy
          · cases hpv : validate_position ((aget fsa "position").getD (Val.obj []))
                ((aget fsa "world").getD (Val.str "hub")) with
            | error e => simp [hid, htr, hpt, hpv, Bind.bind, Except.bind] at h
            | ok pvs =>
              simp [hid, htr, hpt, hpv, Bind.bind, Except.bind, pure, Except.pure] at h
              subst h
              exact entry_viols_no_count seen fsa (Val.str t) pvs
                (validate_position_no_count _ _ _ hpv)
          · simp [hid, htr, hpt, Bind.bind, Except.bind, pure, Except.pure] at h
            subst h
            have := entry_viols_no_count seen fsa (Val.str t) []
              (fun v hv => absurd hv (List.not_mem_nil v))
            intro v hv
            apply this
            simpa using hv
      · simp [hid, htr, Bind.bind, Except.bind, pure, Except.pure] at h
        subst h
        intro v hv
        simp at hv
        subst hv
        rfl
  | null => simp [Bind.bind, Except.bind] at h
  | bool b => simp [Bind.bind, Except.bind] at h
  | num n => simp [Bind.bind, Except.bind] at h
  | str t => simp [Bind.bind, Except.bind] at h
  | arr l => simp [Bind.bind, Except.bind] at h

theorem agentsLoop_no_count (agents : List Val) :
    ∀ (seen : List Val) (vs : List AViol), agentsLoop seen agents = .ok vs →
      ∀ v ∈ vs, isCountViol v = false := by
  induction agents with
  | nil =>
    intro seen vs h
    simp [agentsLoop, pure, Except.pure] at h
    subst h
    intro v hv
    simp at hv
  | cons a rest ih =>
    intro seen vs h
    unfold agentsLoop at h
    cases hr : checkAgentEntry seen a with
    | error e => simp [hr, Bind.bind, Except.bind] at h
    | ok r =>
      cases hrest : agentsLoop r.2 rest with
      | error e => simp [hr, hrest, Bind.bind, Except.bind] at h
      | ok es =>
        simp [hr, hrest, Bind.bind, Except.bind, pure, Except.pure] at h
        subst h
        intro v hv
        rcases List.mem_append.mp hv with h2 | h2
        · exact checkAgentEntry_no_count seen a r hr v h2
        · exact ih r.2 es hrest v h2

theorem validate_agents_split (data : Dict) (agents : List Val) (m : Dict) (vs : List AViol)
    (hag : aget data "agents" = some (.arr agents))
    (hm : aget data "_meta" = some (.obj m))
    (hok : validate_agents data = .ok vs) :
    ∃ le, agentsLoop [] agents = .ok le ∧
      vs = le ++ (if pyEqNat (aget m "agentCount") agents.length then []
                  else [AViol.countMismatch (aget m "agentCount") agents.length]) := by
  unfold validate_agents at hok
  simp only [hag] at hok
  cases hl : agentsLoop [] agents with
  | error e => simp [hl, hm, Bind.bind, Except.bind] at hok
  | ok le =>
    refine ⟨le, rfl, ?_⟩
    simp [hl, hm, Bind.bind, Except.bind, pure, Except.pure] at hok
    exact hok.symm

/-- C7 (amended): the validator's metadata-coherence check is an exact,
zero-tolerance comparison — whenever `validate_agents` returns normally on a
document with an `agents` array and a `_meta` object, it reports an
`agentCount` violation exactly when the announced counter differs at all
from `len(agents)`; separately, the integrity test hard-fails only when the
absolute drift exceeds the hard-coded literal 5.  Neither threshold is a
configuration value. -/
theorem validate_agents_count_and_test (data : Dict) (agents : List Val) (m : Dict)
    (vs : List AViol)
    (hag : aget data "agents" = some (.arr agents))
    (hm : aget data "_meta" = some (.obj m))
    (hok : validate_agents data = .ok vs) :
    (AViol.countMismatch (aget m "agentCount") agents.length ∈ vs ↔
      pyEqNat (aget m "agentCount") agents.length = false) ∧
    (∀ n, aget m "agentCount" = some (.num n) →
      (test_meta_agent_count_matches agents m = some false ↔
        5 < (n - (agents.length : Int)).natAbs)) := by
  obtain ⟨le, hl, hveq⟩ := validate_agents_split data agents m vs hag hm hok
  constructor
  · constructor
    · intro hv
      rw [hveq] at hv
      rcases List.mem_append.mp hv with h2 | h2
      · exfalso
        have := agentsLoop_no_count agents [] le hl _ h2
        simp [isCountViol] at this
      · by_cases hc : pyEqNat (aget m "agentCount") agents.length
        · simp [hc] at h2
        · rwa [Bool.not_eq_true] at hc
    · intro hc
      rw [hveq]
      apply List.mem_append.mpr
      right
      simp [hc]
  · intro n hn
    unfold test_meta_agent_count_matches
    rw [hn]
    constructor
    · intro ht
      simp at ht
      omega
    · intro ht
      simp
      omega

/-- C7, counterexample data: one stored agent but an announced count of 4 —
an absolute drift of 3. -/
def c7Agent : Val :=
  .obj [("id", .str "a1"), ("name", .str "Agent One"), ("world", .str "hub"),
        ("position", .obj [("x", .num 0), ("z", .num 0)]), ("status", .str "active")]

/-- C7, counterexample data: the agents document. -/
def c7Data : Dict :=
  [("agents", .arr [c7Agent]), ("_meta", .obj [("agentCount", .num 4)])]

/-- C7, counterexample.  The claim states the validator reports a violation
exactly when the announced counter differs from the true cardinality by
more than a configurable tolerance.  The only tolerance anywhere in the
code is the integrity test's hard-coded 5; with an announced count of 4
against 1 stored agent (drift 3, within that tolerance) the validator
nonetheless reports the mismatch — its own comparison is exact and admits
no tolerance, configurable or otherwise. -/
theorem validate_agents_tolerance_counterexample :
    validate_agents c7Data = .ok [AViol.countMismatch (some (.num 4)) 1] ∧
    test_meta_agent_count_matches [c7Agent] [("agentCount", .num 4)] = some true ∧
    ((4 : Int) - 1).natAbs ≤ 5 :=
  ⟨rfl, rfl, by decide⟩

/-- C7, witness for `validate_agents_count_and_test` at the counterexample
document. -/
theorem validate_agents_count_and_test_witness :
    (AViol.countMismatch (aget [("agentCount", Val.num 4)] "agentCount") 1
        ∈ [AViol.countMismatch (some (.num 4)) 1] ↔
      pyEqNat (aget [("agentCount", Val.num 4)] "agentCount") 1 = false) ∧
    (∀ n, aget [("agentCount", Val.num 4)] "agentCount" = some (.num n) →
      (test_meta_agent_count_matches [c7Agent] [("agentCount", Val.num 4)] = some false ↔
        5 < (n - ((1 : Nat) : Int)).natAbs)) := by
  have := validate_agents_count_and_test c7Data [c7Agent] [("agentCount", Val.num 4)]
    [AViol.countMismatch (some (.num 4)) 1] rfl rfl rfl
  simpa using this

/-! ### C9 — position-drift detection by the auditor

The cross-check of `audit_state_consistency` (`scripts/validate_action.py`,
lines 392–425) builds `last_move` — the destination of each agent's most
recent move action — then, for each agent present in both maps, emits a
"Position drift" error when the stored (x, z) differs from the last move's
target and a separate "World drift" error when the stored world differs
from the move's world.  Agents and actions are modelled as lists of JSON
objects (the shape the comprehension at lines 375–377 handles without
raising); the agent maps keep the last occurrence of a duplicated id, as a
Python dict comprehension does. -/

/-- The last agent object carrying the given id (dict-comprehension
overwrite semantics). -/
def lastAssoc (agents : List Dict) (i : Val) : Option Dict :=
  (agents.filter (fun a => decide (aget a "id" = some i))).getLast?

/-- Membership of an id in the comprehension-built maps. -/
def hasAgent (agents : List Dict) (i : Val) : Bool :=
  agents.any (fun a => decide (aget a "id" = some i))

/-- `agent_worlds[i]` (line 376): the agent's `world` value, possibly
absent. -/
def agentWorld (agents : List Dict) (i : Val) : Option Val :=
  (lastAssoc agents i).bind (fun a => aget a "world")

/-- `agent_positions[i]` (line 377): the agent's `position` dict, `{}` when
absent.  A present non-object position raises at `current.get` in the
source and is outside the modelled scope. -/
def agentPosition (agents : List Dict) (i : Val) : Dict :=
  match (lastAssoc agents i).bind (fun a => aget a "position") with
  | some (.obj f) => f
  | _ => []

/-- The recorded destination of an agent's most recent move (lines
399–403). -/
structure MoveInfo where
  position : Val
  world : Option Val
  action_id : Option Val
deriving DecidableEq, Repr

/-- One step of the `last_move` accumulation (lines 395–403): a move action
with a truthy `agentId` and a truthy `data.to` overwrites the agent's
entry.  A non-object `data` value raises at `.get` in the source and is
outside the modelled scope (a missing `data` defaults to `{}`). -/
def moveStep (acc : List (Val × MoveInfo)) (action : Dict) : List (Val × MoveInfo) :=
  if aget action "type" = some (.str "move") then
    match aget action "agentId" with
    | some aidv =>
      if aidv.truthy then
        let dataf := match aget action "data" with
          | some (.obj f) => f
          | _ => []
        match aget dataf "to" with
        | some to_pos =>
          if to_pos.truthy then
            aset acc aidv ⟨to_pos, aget action "world", aget action "id"⟩
          else acc
        | none => acc
      else acc
    | none => acc
  else acc

/-- `last_move` (lines 394–403), in insertion order. -/
def lastMove (actions : List Dict) : List (Val × MoveInfo) :=
  actions.foldl moveStep []

/-- The two drift findings of the cross-check, one constructor per
`error()` call site (lines 412–417 and 419–423), carrying the agent id and
the explaining action id. -/
inductive Finding where
  | positionDrift : Val → Option Val → Finding
  | worldDrift : Val → Option Val → Finding
deriving DecidableEq, Repr

/-- View of a move target as a dict (`expected.get(...)`); a truthy
non-object target raises in the source, outside the modelled scope. -/
def posFields : Val → Dict
  | .obj f => f
  | _ => []

/-- The loop over `last_move.items()` (lines 405–423). -/
def driftChecks (agents : List Dict) : List (Val × MoveInfo) → List Finding
  | [] => []
  | (aid, mi) :: rest =>
    (if hasAgent agents aid then
      (if (aget (agentPosition agents aid) "x" ≠ aget (posFields mi.position) "x") ∨
          (aget (agentPosition agents aid) "z" ≠ aget (posFields mi.position) "z")
       then [Finding.positionDrift aid mi.action_id] else []) ++
      (if agentWorld agents aid ≠ mi.world
       then [Finding.worldDrift aid mi.action_id] else [])
     else []) ++ driftChecks agents rest

/-- The position cross-check of `audit_state_consistency`. -/
def driftFindings (agents actions : List Dict) : List Finding :=
  driftChecks agents (lastMove actions)

/-- Number of position-drift findings naming a given record. -/
def countPositionDrift (fs : List Finding) (aid : Val) : Nat :=
  fs.countP (fun f => match f with
    | .positionDrift a _ => decide (a = aid)
    | _ => false)

/-- Number of world-drift findings naming a given record. -/
def countWorldDrift (fs : List Finding) (aid : Val) : Nat :=
  fs.countP (fun f => match f with
    | .worldDrift a _ => decide (a = aid)
    | _ => false)

theorem keysOf_cons {κ β : Type} (p : κ × β) (l : List (κ × β)) :
    keysOf (p :: l) = p.1 :: keysOf l := rfl

theorem mem_keysOf_aset {κ β : Type} [DecidableEq κ] (l : List (κ × β)) (k k' : κ) (v : β)
    (h : k' ∈ keysOf (aset l k v)) : k' = k ∨ k' ∈ keysOf l := by
  induction l with
  | nil =>
    rw [show aset ([] : List (κ × β)) k v = [(k, v)] from rfl, keysOf_cons] at h
    rcases List.mem_cons.mp h with h | h
    · exact Or.inl h
    · simp [keysOf] at h
  | cons p l ih =>
    obtain ⟨pk, pv⟩ := p
    by_cases hp : pk = k
    · subst hp
      rw [show aset ((pk, pv) :: l) pk v = (pk, v) :: l by simp [aset], keysOf_cons] at h
      rcases List.mem_cons.mp h with h | h
      · exact Or.inl h
      · refine Or.inr ?_
        rw [keysOf_cons]
        exact List.mem_cons_of_mem _ h
    · rw [show aset ((pk, pv) :: l) k v = (pk, pv) :: aset l k v by simp [aset, hp],
          keysOf_cons] at h
      rcases List.mem_cons.mp h with h | h
      · refine Or.inr ?_
        rw [keysOf_cons, h]
        exact List.mem_cons_self _ _
      · rcases ih h with h2 | h2
        · exact Or.inl h2
        · refine Or.inr ?_
          rw [keysOf_cons]
          exact List.mem_cons_of_mem _ h2

theorem keysOf_aset_nodup {κ β : Type} [DecidableEq κ] (l : List (κ × β)) (k : κ) (v : β)
    (h : (keysOf l).Nodup) : (keysOf (aset l k v)).Nodup := by
  induction l with
  | nil => simp [aset, keysOf]
  | cons p l ih =>
    obtain ⟨pk, pv⟩ := p
    rw [keysOf_cons] at h
    have h1 := List.nodup_cons.mp h
    by_cases hp : pk = k
    · subst hp
      rw [show aset ((pk, pv) :: l) pk v = (pk, v) :: l by simp [aset], keysOf_cons]
      exact List.nodup_cons.mpr ⟨h1.1, h1.2⟩
    · rw [show aset ((pk, pv) :: l) k v = (pk, pv) :: aset l k v by simp [aset, hp],
          keysOf_cons]
      refine List.nodup_cons.mpr ⟨?_, ih h1.2⟩
      intro hmem
      rcases mem_keysOf_aset l k pk v hmem with h2 | h2
      · exact hp h2
      · exact h1.1 h2

theorem moveStep_nodup (acc : List (Val × MoveInfo)) (action : Dict)
    (h : (keysOf acc).Nodup) : (keysOf (moveStep acc action)).Nodup := by
  unfold moveStep
  by_cases ht : aget action "type" = some (.str "move")
  · simp only [ht, if_true]
    cases aget action "agentId" with
    | none => exact h
    | some aidv =>
      by_cases htr : aidv.truthy
      · simp only [htr, if_true]
        cases aget (match aget action "data" with
          | some (.obj f) => f
          | _ => []) "to" with
        | none => exact h
        | some to_pos =>
          by_cases htp : to_pos.truthy
          · simp only [htp, if_true]
            exact keysOf_aset_nodup acc aidv _ h
          · simpa [htp] using h
      · simpa [htr] using h
  · simpa [ht] using h

theorem lastMove_nodup (actions : List Dict) : (keysOf (lastMove actions)).Nodup := by
  have hgen : ∀ (acc : List (Val × MoveInfo)), (keysOf acc).Nodup →
      (keysOf (actions.foldl moveStep acc)).Nodup := by
    induction actions with
    | nil => intro acc h; simpa using h
    | cons a rest ih =>
      intro acc h
      simpa [List.foldl_cons] using ih (moveStep acc a) (moveStep_nodup acc a h)
  simpa [lastMove] using hgen [] (by simp [keysOf])

theorem driftChecks_count_zero (agents : List Dict) (l : List (Val × MoveInfo)) (aid : Val)
    (hnot : aid ∉ keysOf l) :
    countPositionDrift (driftChecks agents l) aid = 0 ∧
    countWorldDrift (driftChecks agents l) aid = 0 := by
  induction l with
  | nil => simp [driftChecks, countPositionDrift, countWorldDrift]
  | cons p rest ih =>
    obtain ⟨k, mi⟩ := p
    rw [keysOf_cons] at hnot
    have hk : k ≠ aid := by
      intro he
      exact hnot (by rw [he]; exact List.mem_cons_self _ _)
    have hrest : aid ∉ keysOf rest := fun hm => hnot (List.mem_cons_of_mem _ hm)
    obtain ⟨ih1, ih2⟩ := ih hrest
    unfold driftChecks
    rw [countPositionDrift, countWorldDrift, List.countP_append, List.countP_append]
    constructor
    · rw [countPositionDrift] at ih1
      rw [ih1]
      by_cases hag : hasAgent agents k <;>
        by_cases hc1 : (aget (agentPosition agents k) "x" ≠ aget (posFields mi.position) "x") ∨
            (aget (agentPosition agents k) "z" ≠ aget (posFields mi.position) "z") <;>
        by_cases hc2 : agentWorld agents k ≠ mi.world <;>
        simp [hag, hc1, hc2, List.countP_append, List.countP_cons, hk]
    · rw [countWorldDrift] at ih2
      rw [ih2]
      by_cases hag : hasAgent agents k <;>
        by_cases hc1 : (aget (agentPosition agents k) "x" ≠ aget (posFields mi.position) "x") ∨
            (aget (agentPosition agents k) "z" ≠ aget (posFields mi.position) "z") <;>
        by_cases hc2 : agentWorld agents k ≠ mi.world <;>
        simp [hag, hc1, hc2, List.countP_append, List.countP_cons, hk]

theorem driftChecks_count (agents : List Dict) (l : List (Val × MoveInfo)) (aid : Val)
    (mi : MoveInfo) (hnd : (keysOf l).Nodup) (hmem : aget l aid = some mi)
    (hagent : hasAgent agents aid = true) :
    countPositionDrift (driftChecks agents l) aid =
      (if (aget (agentPosition agents aid) "x" ≠ aget (posFields mi.position) "x") ∨
          (aget (agentPosition agents aid) "z" ≠ aget (posFields mi.position) "z")
       then 1 else 0) ∧
    countWorldDrift (driftChecks agents l) aid =
      (if agentWorld agents aid ≠ mi.world then 1 else 0) := by
  induction l with
  | nil => simp [aget] at hmem
  | cons p rest ih =>
    obtain ⟨k, m⟩ := p
    rw [keysOf_cons] at hnd
    have h1 := List.nodup_cons.mp hnd
    by_cases hk : k = aid
    · subst hk
      have hm : m = mi := by simpa [aget] using hmem
      subst hm
      have hz := driftChecks_count_zero agents rest k h1.1
      unfold driftChecks
      rw [countPositionDrift, countWorldDrift, List.countP_append, List.countP_append]
      rw [countPositionDrift] at hz
      rw [countWorldDrift] at hz
      rw [hz.1, hz.2]
      constructor
      · by_cases hc1 : (aget (agentPosition agents k) "x" ≠ aget (posFields m.position) "x") ∨
            (aget (agentPosition agents k) "z" ≠ aget (posFields m.position) "z") <;>
          by_cases hc2 : agentWorld agents k ≠ m.world <;>
          simp [hagent, hc1, hc2, List.countP_append, List.countP_cons]
      · by_cases hc1 : (aget (agentPosition agents k) "x" ≠ aget (posFields m.position) "x") ∨
            (aget (agentPosition agents k) "z" ≠ aget (posFields m.position) "z") <;>
          by_cases hc2 : agentWorld agents k ≠ m.world <;>
          simp [hagent, hc1, hc2, List.countP_append, List.countP_cons]
    · have hmem' : aget rest aid = some mi := by simpa [aget, hk] using hmem
      have hnd' : (keysOf rest).Nodup := h1.2
      obtain ⟨ih1, ih2⟩ := ih hnd' hmem'
      unfold driftChecks
      rw [countPositionDrift, countWorldDrift, List.countP_append, List.countP_append]
      rw [countPositionDrift] at ih1
      rw [countWorldDrift] at ih2
      rw [ih1, ih2]
      constructor
      · by_cases hag : hasAgent agents k <;>
          by_cases hc1 : (aget (agentPosition agents k) "x" ≠ aget (posFields m.position) "x") ∨
              (aget (agentPosition agents k) "z" ≠ aget (posFields m.position) "z") <;>
          by_cases hc2 : agentWorld agents k ≠ m.world <;>
          simp [hag, hc1, hc2, List.countP_append, List.countP_cons, hk]
      · by_cases hag : hasAgent agents k <;>
          by_cases hc1 : (aget (agentPosition agents k) "x" ≠ aget (posFields m.position) "x") ∨
              (aget (agentPosition agents k) "z" ≠ aget (posFields m.position) "z") <;>
          by_cases hc2 : agentWorld agents k ≠ m.world <;>
          simp [hag, hc1, hc2, List.countP_append, List.countP_cons, hk]

/-- C9 (amended): for each record that exists in the agents document and
has a most recent relocation entry, the auditor yields exactly one
position-drift finding naming the record when the stored (x, z) disagrees
with that entry's target and none when they agree; a stored world that
disagrees with the entry's world yields exactly one *separate* world-drift
finding.  A record disagreeing in both yields one finding of each kind, and
a record disagreeing only in its world yields no position-drift finding. -/
theorem drift_findings_per_record (agents actions : List Dict) (aid : Val) (mi : MoveInfo)
    (hmem : aget (lastMove actions) aid = some mi)
    (hagent : hasAgent agents aid = true) :
    countPositionDrift (driftFindings agents actions) aid =
      (if (aget (agentPosition agents aid) "x" ≠ aget (posFields mi.position) "x") ∨
          (aget (agentPosition agents aid) "z" ≠ aget (posFields mi.position) "z")
       then 1 else 0) ∧
    countWorldDrift (driftFindings agents actions) aid =
      (if agentWorld agents aid ≠ mi.world then 1 else 0) := by
  unfold driftFindings
  exact driftChecks_count agents (lastMove actions) aid mi (lastMove_nodup actions) hmem hagent

/-- C9, counterexample data: one agent stored in `hub` at (5, 5). -/
def c9Agents : List Dict :=
  [[("id", .str "a1"), ("name", .str "Agent One"), ("world", .str "hub"),
    ("position", .obj [("x", .num 5), ("z", .num 5)]), ("status", .str "active")]]

/-- C9, counterexample data: the record's most recent move, to (5, 5) in
`arena` — the position agrees with the stored one, the zone does not. -/
def c9Actions : List Dict :=
  [[("id", .str "act-1"), ("timestamp", .str "2026-02-11T19:20:44Z"),
    ("agentId", .str "a1"), ("type", .str "move"), ("world", .str "arena"),
    ("data", .obj [("to", .obj [("x", .num 5), ("z", .num 5)])])]]

/-- C9, counterexample.  The claim states that a record whose current
location *or zone* disagrees with its most recent relocation entry yields
exactly one position-drift finding naming it.  On the code, a record whose
zone alone disagrees (position matching) yields zero position-drift
findings — the disagreement is reported as a separate world-drift finding
instead. -/
theorem drift_zone_only_counterexample :
    agentWorld c9Agents (.str "a1") = some (.str "hub") ∧
    (lastMove c9Actions).length = 1 ∧
    aget (lastMove c9Actions) (.str "a1")
      = some ⟨.obj [("x", .num 5), ("z", .num 5)], some (.str "arena"), some (.str "act-1")⟩ ∧
    countPositionDrift (driftFindings c9Agents c9Actions) (.str "a1") = 0 ∧
    countWorldDrift (driftFindings c9Agents c9Actions) (.str "a1") = 1 := by
  refine ⟨rfl, rfl, rfl, by decide, by decide⟩

/-- C9, witness for `drift_findings_per_record` at a state whose record
drifted in position and world both. -/
theorem drift_findings_per_record_witness :
    countPositionDrift (driftFindings
        [[("id", .str "b1"), ("world", .str "hub"),
          ("position", .obj [("x", .num 1), ("z", .num 2)])]]
        [[("id", .str "act-9"), ("agentId", .str "b1"), ("type", .str "move"),
          ("world", .str "arena"),
          ("data", .obj [("to", .obj [("x", .num 3), ("z", .num 4)])])]]) (.str "b1") =
      (if (aget (agentPosition
              [[("id", .str "b1"), ("world", .str "hub"),
                ("position", .obj [("x", .num 1), ("z", .num 2)])]] (.str "b1")) "x"
            ≠ aget (posFields (Val.obj [("x", .num 3), ("z", .num 4)])) "x") ∨
          (aget (agentPosition
              [[("id", .str "b1"), ("world", .str "hub"),
                ("position", .obj [("x", .num 1), ("z", .num 2)])]] (.str "b1")) "z"
            ≠ aget (posFields (Val.obj [("x", .num 3), ("z", .num 4)])) "z")
       then 1 else 0) ∧
    countWorldDrift (driftFindings
        [[("id", .str "b1"), ("world", .str "hub"),
          ("position", .obj [("x", .num 1), ("z", .num 2)])]]
        [[("id", .str "act-9"), ("agentId", .str "b1"), ("type", .str "move"),
          ("world", .str "arena"),
          ("data", .obj [("to", .obj [("x", .num 3), ("z", .num 4)])])]]) (.str "b1") =
      (if agentWorld
            [[("id", .str "b1"), ("world", .str "hub"),
              ("position", .obj [("x", .num 1), ("z", .num 2)])]] (.str "b1")
          ≠ (some (.str "arena") : Option Val) then 1 else 0) :=
  drift_findings_per_record
    [[("id", .str "b1"), ("world", .str "hub"),
      ("position", .obj [("x", .num 1), ("z", .num 2)])]]
    [[("id", .str "act-9"), ("agentId", .str "b1"), ("type", .str "move"),
      ("world", .str "arena"),
      ("data", .obj [("to", .obj [("x", .num 3), ("z", .num 4)])])]]
    (.str "b1") ⟨.obj [("x", .num 3), ("z", .num 4)], some (.str "arena"), some (.str "act-9")⟩
    (by decide) (by decide)
